import Mathlib

/-!
# Verification of the kstring library (KString.c / KString.h)

A shallow embedding of the KString "German string" library.  A `KString`
is the 16-byte value of `KString.h`: a 32-bit `meta` field (called `Size`
in the C source; low 30 bits byte length, high 2 bits encoding tag) plus
a 12-byte payload region.  The C union of the payload is modelled by
keeping both views in the structure:

* `content` models the 12 inline bytes `Content[12]` (read only when the
  string is short);
* `pfx` models `LongStr.Prefix[4]` and `buffer` models the byte array
  referenced by the tagged pointer `LongStr.PtrAndClass` (both read only
  when the string is long); `scls` models the 2-bit storage class.

Machine integers are `Nat`; the one place where `size_t` overflow is
observable (`Offset + LocalSize` in `KStringSubstring`) reduces the sum
modulo `2^64`.  Heap allocation and the 62-bit tagged-pointer validation
always succeed in the model (claims are stated "allocation permitting");
callers pass byte lists instead of pointer/length pairs, with the length
argument of the C constructors equal to the list length.
-/

/-- The four encoding tags of `KStringEncoding` (KString.h, values 0..3). -/
inductive KStringEncoding where
  | utf8
  | utf16le
  | utf16be
  | ansi
deriving DecidableEq, Repr

/-- Numeric value of an encoding tag as stored in the upper 2 meta bits. -/
def KStringEncoding.toNat : KStringEncoding → Nat
  | .utf8 => 0
  | .utf16le => 1
  | .utf16be => 2
  | .ansi => 3

/-- The C cast `(KStringEncoding)` of a 2-bit value. -/
def KStringEncodingOfBits : Nat → KStringEncoding
  | 0 => .utf8
  | 1 => .utf16le
  | 2 => .utf16be
  | _ => .ansi

/-- The three storage classes of `KStringStorageClass` (KString.h). -/
inductive KStringStorageClass where
  | persistent
  | transient
  | temporary
deriving DecidableEq, Repr

def KSTRING_MAX_SHORT_LENGTH : Nat := 12
def KSTRING_SIZE_MASK : Nat := 0x3FFFFFFF
def KSTRING_ENCODING_MASK : Nat := 0xC0000000
def KSTRING_ENCODING_SHIFT : Nat := 30
def KSTRING_INVALID_LENGTH : Nat := 0xFFFFFFFF
/-- Value `SIZE_MAX + 1` on the 64-bit targets the source is written for. -/
def SIZE_T_MOD : Nat := 2 ^ 64

/-- Models the iteration bound `DataSize - 1` of the UTF-16 byte-swap
loops (KString.c lines 1237 and 1266), a `size_t` subtraction: at
`DataSize = 0` it wraps to `SIZE_MAX`. -/
def swapLoopBound (DataSize : Nat) : Nat :=
  (DataSize + SIZE_T_MOD - 1) % SIZE_T_MOD

/-- The 16-byte KString value (see the header note above on the union). -/
structure KString where
  meta : Nat
  content : List Nat
  pfx : List Nat
  buffer : List Nat
  scls : KStringStorageClass
deriving DecidableEq, Repr

/-- Models `KS_IsShortString` (KString.c line 92). -/
def KS_IsShortString (Size : Nat) : Bool :=
  decide (Size ≤ KSTRING_MAX_SHORT_LENGTH)

/-- Models `KS_GetSizeFromField` (KString.c line 127): mask the low 30 bits. -/
def KS_GetSizeFromField (SizeField : Nat) : Nat :=
  SizeField &&& KSTRING_SIZE_MASK

/-- Models `KS_GetEncodingFromField` (KString.c line 133): shift/mask the high 2 bits. -/
def KS_GetEncodingFromField (SizeField : Nat) : KStringEncoding :=
  KStringEncodingOfBits ((SizeField &&& KSTRING_ENCODING_MASK) >>> KSTRING_ENCODING_SHIFT)

/-- Models `KS_CreateSizeField` (KString.c line 139).  The C also tests
`Size > UINT32_MAX`, subsumed by the first test but kept for fidelity. -/
def KS_CreateSizeField (Size : Nat) (Encoding : KStringEncoding) : Nat :=
  if Size > KSTRING_SIZE_MASK ∨ Size > 0xFFFFFFFF then KSTRING_INVALID_LENGTH
  else Size ||| (Encoding.toNat <<< KSTRING_ENCODING_SHIFT)

/-- Models `KStringInvalid` (KString.c line 1336): `{0}` zero initialisation
followed by setting the meta field to the sentinel. -/
def KStringInvalid : KString :=
  { meta := KSTRING_INVALID_LENGTH
    content := List.replicate 12 0
    pfx := List.replicate 4 0
    buffer := []
    scls := .persistent }

/-- Models `KStringIsValid` (KString.c line 1331). -/
def KStringIsValid (Str : KString) : Bool :=
  Str.meta != KSTRING_INVALID_LENGTH

/-- Models `KStringIsShort` (KString.c line 396). -/
def KStringIsShort (Str : KString) : Bool :=
  KS_IsShortString (KS_GetSizeFromField Str.meta)

/-- Models `KStringSize` (KString.c line 386). -/
def KStringSize (Str : KString) : Nat :=
  if KStringIsValid Str then KS_GetSizeFromField Str.meta else 0

/-- Models `KStringGetEncoding` (KString.c line 391). -/
def KStringGetEncoding (Str : KString) : KStringEncoding :=
  if KStringIsValid Str then KS_GetEncodingFromField Str.meta else .utf8

/-- The byte pointer the C resolves with
`KStringIsShort(Str) ? Str.Content : KS_GetPointer(Str.LongStr.PtrAndClass)`. -/
def KStringData (Str : KString) : List Nat :=
  if KStringIsShort Str then Str.content else Str.buffer

/-- The declared bytes of a string: the first `KS_GetSizeFromField` bytes
behind the data pointer.  (Not a C function; used to state byte-level
properties.) -/
def KStringBytes (Str : KString) : List Nat :=
  (KStringData Str).take (KS_GetSizeFromField Str.meta)

/-- The inline region written by the constructors for a short string:
`memcpy(Content, pStr, Size)` then `memset(Content + Size, 0, 12 - Size)`
(KString.c lines 180-185). -/
def inlineContent (pStr : List Nat) : List Nat :=
  pStr ++ List.replicate (KSTRING_MAX_SHORT_LENGTH - pStr.length) 0

/-- The stored 4-byte region written for a long string:
`PrefixSize = (Size >= 4) ? 4 : Size`, copy, then zero-fill to 4 bytes
(KString.c lines 200-205). -/
def storedPrefixOf (pStr : List Nat) : List Nat :=
  let PrefixSize := if pStr.length ≥ 4 then 4 else pStr.length
  pStr.take PrefixSize ++ List.replicate (4 - PrefixSize) 0

/-- Models `KStringCreateWithEncoding` (KString.c line 162).  `pStr` is the Size
readable bytes behind the C pointer (the null-pointer failure case is not
representable for a list argument).  For a short result the C leaves the
`LongStr` view aliasing `Content`, never read: modelled by
`pfx = content.take 4`, `buffer = []`.  For a long result `content` is
never read: modelled as zeros. -/
def KStringCreateWithEncoding (pStr : List Nat) (Encoding : KStringEncoding) : KString :=
  let Size := pStr.length
  let sf := KS_CreateSizeField Size Encoding
  if sf = KSTRING_INVALID_LENGTH then KStringInvalid
  else if KS_IsShortString Size then
    { meta := sf
      content := inlineContent pStr
      pfx := (inlineContent pStr).take 4
      buffer := []
      scls := .persistent }
  else
    { meta := sf
      content := List.replicate 12 0
      pfx := storedPrefixOf pStr
      buffer := pStr
      scls := .temporary }

/-- Models `KStringCreate` (KString.c line 156): default UTF-8 encoding. -/
def KStringCreate (pStr : List Nat) : KString :=
  KStringCreateWithEncoding pStr .utf8

/-- Models `KStringCreatePersistentWithEncoding` (KString.c line 227): identical
to owned creation for short strings; for long strings wraps the caller
bytes with the `persistent` storage class. -/
def KStringCreatePersistentWithEncoding (pStr : List Nat) (Encoding : KStringEncoding) : KString :=
  let Size := pStr.length
  let sf := KS_CreateSizeField Size Encoding
  if sf = KSTRING_INVALID_LENGTH then KStringInvalid
  else if KS_IsShortString Size then
    { meta := sf
      content := inlineContent pStr
      pfx := (inlineContent pStr).take 4
      buffer := []
      scls := .persistent }
  else
    { meta := sf
      content := List.replicate 12 0
      pfx := storedPrefixOf pStr
      buffer := pStr
      scls := .persistent }

/-- Models `KStringCreateTransientWithEncoding` (KString.c line 273). -/
def KStringCreateTransientWithEncoding (pStr : List Nat) (Encoding : KStringEncoding) : KString :=
  let Size := pStr.length
  let sf := KS_CreateSizeField Size Encoding
  if sf = KSTRING_INVALID_LENGTH then KStringInvalid
  else if KS_IsShortString Size then
    { meta := sf
      content := inlineContent pStr
      pfx := (inlineContent pStr).take 4
      buffer := []
      scls := .persistent }
  else
    { meta := sf
      content := List.replicate 12 0
      pfx := storedPrefixOf pStr
      buffer := pStr
      scls := .transient }

/-- Models `memcmp` on `n` bytes, returning only the sign (all the C standard
promises).  Bytes are compared as `unsigned char`.  The fall-through case
(a list exhausted before `n` bytes) is an out-of-bounds read in C and is
unreached at the modelled call sites. -/
def memcmpSign : List Nat → List Nat → Nat → Int
  | _, _, 0 => 0
  | a :: as, b :: bs, n + 1 =>
    if a < b then -1 else if b < a then 1 else memcmpSign as bs n
  | _, _, _ + 1 => 0

/-- Models `KStringCompare` (KString.c line 405). -/
def KStringCompare (StrA StrB : KString) : Int :=
  let SizeA := KS_GetSizeFromField StrA.meta
  let SizeB := KS_GetSizeFromField StrB.meta
  if SizeA ≠ SizeB then (if SizeA < SizeB then -1 else 1)
  else if KStringIsShort StrA ∧ KStringIsShort StrB then
    memcmpSign StrA.content StrB.content SizeA
  else if KStringIsShort StrA ∨ KStringIsShort StrB then
    memcmpSign (KStringData StrA) (KStringData StrB) SizeA
  else
    let PrefixCmp := memcmpSign StrA.pfx StrB.pfx 4
    if PrefixCmp ≠ 0 then PrefixCmp
    else memcmpSign StrA.buffer StrB.buffer SizeA

/-- Models `KStringEquals` (KString.c line 446). -/
def KStringEquals (StrA StrB : KString) : Bool :=
  KStringCompare StrA StrB == 0

/-- Models `KStringStartsWith` (KString.c line 451). -/
def KStringStartsWith (Str Pfx : KString) : Bool :=
  let StrSize := KS_GetSizeFromField Str.meta
  let PrefixSize := KS_GetSizeFromField Pfx.meta
  if PrefixSize > StrSize then false
  else if PrefixSize = 0 then true
  else if KStringIsShort Str ∧ KStringIsShort Pfx then
    memcmpSign Str.content Pfx.content PrefixSize == 0
  else if KStringIsShort Str then
    memcmpSign Str.content (KStringData Pfx) PrefixSize == 0
  else if KStringIsShort Pfx then
    if PrefixSize ≤ 4 then
      memcmpSign Str.pfx Pfx.content PrefixSize == 0
    else
      memcmpSign Str.buffer Pfx.content PrefixSize == 0
  else
    if PrefixSize ≤ 4 then
      memcmpSign Str.pfx Pfx.pfx PrefixSize == 0
    else
      memcmpSign Str.buffer Pfx.buffer PrefixSize == 0

/-- Models `KS_ToLowerAscii` (KString.c line 512) on a byte value: bytes 0x80..0xFF
are negative as C `char` and never satisfy `c >= 'A'`, so the byte-value
condition `65 ≤ c ≤ 90` is exact. -/
def KS_ToLowerAscii (c : Nat) : Nat :=
  if 65 ≤ c ∧ c ≤ 90 then c + 32 else c

/-- The value of a byte read through a (signed) C `char`. -/
def charSigned (c : Nat) : Int :=
  if c < 128 then (c : Int) else (c : Int) - 256

/-- Models `KS_MemcmpIgnoreCase` (KString.c line 518).  Note the `c1 < c2`
comparison is on signed `char` values, unlike `memcmp`.  The fall-through
case is an out-of-bounds read in C. -/
def KS_MemcmpIgnoreCase : List Nat → List Nat → Nat → Int
  | _, _, 0 => 0
  | a :: as, b :: bs, n + 1 =>
    let c1 := KS_ToLowerAscii a
    let c2 := KS_ToLowerAscii b
    if c1 ≠ c2 then (if charSigned c1 < charSigned c2 then -1 else 1)
    else KS_MemcmpIgnoreCase as bs n
  | _, _, _ + 1 => 0

/-- Models `KStringCompareIgnoreCase` (KString.c line 536).  Unlike
`KStringCompare` it compares the raw meta fields `StrA.Size != StrB.Size`
(not the extracted lengths) and passes the raw meta field as the byte
count of every content comparison. -/
def KStringCompareIgnoreCase (StrA StrB : KString) : Int :=
  if StrA.meta ≠ StrB.meta then (if StrA.meta < StrB.meta then -1 else 1)
  else if KStringIsShort StrA ∧ KStringIsShort StrB then
    KS_MemcmpIgnoreCase StrA.content StrB.content StrA.meta
  else if KStringIsShort StrA ∨ KStringIsShort StrB then
    KS_MemcmpIgnoreCase (KStringData StrA) (KStringData StrB) StrA.meta
  else
    let PrefixCmp := KS_MemcmpIgnoreCase StrA.pfx StrB.pfx 4
    if PrefixCmp ≠ 0 then PrefixCmp
    else KS_MemcmpIgnoreCase StrA.buffer StrB.buffer StrA.meta

/-- Models `KStringEqualsIgnoreCase` (KString.c line 573). -/
def KStringEqualsIgnoreCase (StrA StrB : KString) : Bool :=
  KStringCompareIgnoreCase StrA StrB == 0

/-- Models `KStringConcat` (KString.c line 638). -/
def KStringConcat (StrA StrB : KString) : KString :=
  if KStringIsValid StrA = false ∨ KStringIsValid StrB = false then KStringInvalid
  else
    let SizeA := KS_GetSizeFromField StrA.meta
    let SizeB := KS_GetSizeFromField StrB.meta
    if SizeA > SIZE_T_MOD - 1 - SizeB then KStringInvalid
    else
      let TotalLength := SizeA + SizeB
      if TotalLength > KSTRING_SIZE_MASK then KStringInvalid
      else
        let Encoding := KS_GetEncodingFromField StrA.meta
        let pBuffer := KStringBytes StrA ++ KStringBytes StrB
        let sf := KS_CreateSizeField TotalLength Encoding
        if sf = KSTRING_INVALID_LENGTH then KStringInvalid
        else if KS_IsShortString TotalLength then
          { meta := sf
            content := pBuffer.take TotalLength ++ List.replicate (12 - TotalLength) 0
            pfx := (pBuffer.take TotalLength ++ List.replicate (12 - TotalLength) 0).take 4
            buffer := []
            scls := .persistent }
        else
          { meta := sf
            content := List.replicate 12 0
            pfx := pBuffer.take 4
            buffer := pBuffer
            scls := .temporary }

/-- Models `KStringSubstring` (KString.c line 709).  `Offset` and `Size` are
`size_t`; the clamp test `Offset + LocalSize > StrSize` wraps modulo
`2^64` exactly as the C addition does. -/
def KStringSubstring (Str : KString) (Offset Size : Nat) : KString :=
  if KStringIsValid Str = false then KStringInvalid
  else
    let StrSize := KS_GetSizeFromField Str.meta
    let Encoding := KS_GetEncodingFromField Str.meta
    if Offset ≥ StrSize then KStringInvalid
    else
      let LocalSize := if (Offset + Size) % SIZE_T_MOD > StrSize then StrSize - Offset else Size
      if LocalSize > KSTRING_SIZE_MASK then KStringInvalid
      else
        let pSourceData := KStringData Str
        let sf := KS_CreateSizeField LocalSize Encoding
        if sf = KSTRING_INVALID_LENGTH then KStringInvalid
        else
          let slice := (pSourceData.drop Offset).take LocalSize
          if KS_IsShortString LocalSize then
            { meta := sf
              content := slice ++ List.replicate (12 - LocalSize) 0
              pfx := (slice ++ List.replicate (12 - LocalSize) 0).take 4
              buffer := []
              scls := .persistent }
          else
            { meta := sf
              content := List.replicate 12 0
              pfx := slice.take 4
              buffer := slice
              scls := .temporary }

/-!
## Encoding conversion subsystem

The conversion helpers walk the input with an index `i` and an output
count bounded by a capacity; they are modelled as functions from the
remaining input (a list) and the current output count to the list of
units/bytes emitted from that point on.  The capacity guards use `Nat`
truncated subtraction; at every modelled call site the C `size_t`
subtraction cannot wrap when the guard is reachable (the wrappers pass
`MaxUtf16Size = Utf8Size` and `MaxUtf8Size = 4 * Utf16Size`, and a
nonempty remainder forces the minuend large enough), so the semantics
agree with the C.
-/

/-- Loop body of `KS_ConvertUtf8ToUtf16Le` (KString.c lines 781-865).
`rem` is `pUtf8[i..Utf8Size)`; returns the UTF-16 units written from
this state on.  A lead byte matching no pattern takes the final
`BytesRead = 1` branch with `CodePoint = 0` and so emits one 0 unit. -/
def utf8ToUtf16Go (MaxUtf16Size : Nat) : List Nat → Nat → List Nat
  | [], _ => []
  | FirstByte :: rest, Utf16Count =>
    if Utf16Count < MaxUtf16Size - 1 then
      if FirstByte < 0x80 then
        FirstByte :: utf8ToUtf16Go MaxUtf16Size rest (Utf16Count + 1)
      else if FirstByte &&& 0xE0 = 0xC0 then
        match rest with
        | b1 :: rest2 =>
          (((FirstByte &&& 0x1F) <<< 6) ||| (b1 &&& 0x3F)) ::
            utf8ToUtf16Go MaxUtf16Size rest2 (Utf16Count + 1)
        | [] => []
      else if FirstByte &&& 0xF0 = 0xE0 then
        match rest with
        | b1 :: b2 :: rest3 =>
          (((FirstByte &&& 0x0F) <<< 12) ||| ((b1 &&& 0x3F) <<< 6) ||| (b2 &&& 0x3F)) ::
            utf8ToUtf16Go MaxUtf16Size rest3 (Utf16Count + 1)
        | _ => []
      else if FirstByte &&& 0xF8 = 0xF0 then
        match rest with
        | b1 :: b2 :: b3 :: rest4 =>
          let CodePoint := ((FirstByte &&& 0x07) <<< 18) ||| ((b1 &&& 0x3F) <<< 12) |||
            ((b2 &&& 0x3F) <<< 6) ||| (b3 &&& 0x3F)
          if CodePoint > 0xFFFF ∧ Utf16Count < MaxUtf16Size - 2 then
            (0xD800 + ((CodePoint - 0x10000) >>> 10)) ::
              (0xDC00 + ((CodePoint - 0x10000) &&& 0x3FF)) ::
              utf8ToUtf16Go MaxUtf16Size rest4 (Utf16Count + 2)
          else if CodePoint ≤ 0xFFFF then
            CodePoint :: utf8ToUtf16Go MaxUtf16Size rest4 (Utf16Count + 1)
          else
            utf8ToUtf16Go MaxUtf16Size rest4 Utf16Count
        | _ => []
      else
        0 :: utf8ToUtf16Go MaxUtf16Size rest (Utf16Count + 1)
    else []

/-- The UTF-8 bytes a code point is re-encoded to in
`KS_ConvertUtf16LeToUtf8` (KString.c lines 897-919). -/
def utf8EncodeCodePoint (CodePoint : Nat) : List Nat :=
  if CodePoint < 0x80 then [CodePoint]
  else if CodePoint < 0x800 then
    [0xC0 ||| (CodePoint >>> 6), 0x80 ||| (CodePoint &&& 0x3F)]
  else if CodePoint < 0x10000 then
    [0xE0 ||| (CodePoint >>> 12), 0x80 ||| ((CodePoint >>> 6) &&& 0x3F),
     0x80 ||| (CodePoint &&& 0x3F)]
  else if CodePoint < 0x110000 then
    [0xF0 ||| (CodePoint >>> 18), 0x80 ||| ((CodePoint >>> 12) &&& 0x3F),
     0x80 ||| ((CodePoint >>> 6) &&& 0x3F), 0x80 ||| (CodePoint &&& 0x3F)]
  else []

/-- Loop body of `KS_ConvertUtf16LeToUtf8` (KString.c lines 868-923).
The list is the remaining UTF-16 units.  The extra fuel argument makes
the recursion structural; every iteration consumes at least one unit, so
with fuel at least the unit count (as the wrapper passes) the fuel case
is never the one that stops the loop. -/
def utf16ToUtf8Go (MaxUtf8Size : Nat) : Nat → List Nat → Nat → List Nat
  | 0, _, _ => []
  | _, [], _ => []
  | fuel + 1, u0 :: rest, Utf8Count =>
    if Utf8Count < MaxUtf8Size - 4 then
      if 0xD800 ≤ u0 ∧ u0 ≤ 0xDBFF ∧ rest ≠ [] then
        match rest with
        | u1 :: rest2 =>
          if 0xDC00 ≤ u1 ∧ u1 ≤ 0xDFFF then
            let CodePoint := 0x10000 + ((u0 - 0xD800) <<< 10) + (u1 - 0xDC00)
            utf8EncodeCodePoint CodePoint ++
              utf16ToUtf8Go MaxUtf8Size fuel rest2
                (Utf8Count + (utf8EncodeCodePoint CodePoint).length)
          else
            utf16ToUtf8Go MaxUtf8Size fuel (u1 :: rest2) Utf8Count
        | [] => []
      else
        utf8EncodeCodePoint u0 ++
          utf16ToUtf8Go MaxUtf8Size fuel rest
            (Utf8Count + (utf8EncodeCodePoint u0).length)
    else []

/-- Little-endian byte image of an array of `uint16_t` values, as read
back by `KStringCreateWithEncoding((const char*)pUtf16Buffer, ...)`. -/
def utf16leSerialize (units : List Nat) : List Nat :=
  units.flatMap (fun u => [u % 256, u / 256 % 256])

/-- The `uint16_t` values behind `(const uint16_t*)` applied to a byte
region; a trailing odd byte is never read (`Utf16Size = byteSize / 2`). -/
def utf16leUnits : List Nat → List Nat
  | b0 :: b1 :: rest => (b0 + 256 * b1) :: utf16leUnits rest
  | _ => []

/-- Models `KStringConvertUtf8ToUtf16Le` (KString.c line 1139): guard, run the
helper with `MaxUtf16Size = Utf8Size`, build a UTF-16LE string from the
`Utf16Count * 2` output bytes. -/
def KStringConvertUtf8ToUtf16Le (Str : KString) : KString :=
  if KStringIsValid Str = false ∨ KS_GetEncodingFromField Str.meta ≠ .utf8 then KStringInvalid
  else
    let Utf8Size := KS_GetSizeFromField Str.meta
    let Utf16Units := utf8ToUtf16Go Utf8Size (KStringBytes Str) 0
    KStringCreateWithEncoding (utf16leSerialize Utf16Units) .utf16le

/-- Models `KStringConvertUtf16LeToUtf8` (KString.c line 1165): guard, read
`Utf16Size = byteSize / 2` units, run the helper with
`MaxUtf8Size = Utf16Size * 4`, build a UTF-8 string. -/
def KStringConvertUtf16LeToUtf8 (Str : KString) : KString :=
  if KStringIsValid Str = false ∨ KS_GetEncodingFromField Str.meta ≠ .utf16le then KStringInvalid
  else
    let Units := utf16leUnits (KStringBytes Str)
    let Utf8Bytes := utf16ToUtf8Go (Units.length * 4) Units.length Units 0
    KStringCreateWithEncoding Utf8Bytes .utf8

/-- The byte-swap loop of the UTF-16 LE/BE conversions (KString.c lines
1237-1241): `for (i = 0; i < DataSize - 1; i += 2)` swaps each pair; with
odd input the final byte is never written and stays 0 from `calloc`.
At `DataSize = 0` the C guard wraps in `size_t` (see `swapLoopBound`) and
the loop overruns the allocation — undefined behavior — so the `[]`
equation below does not model the C; every theorem about these
conversions excludes the empty string. -/
def swapBytePairs : List Nat → List Nat
  | [] => []
  | [_] => [0]
  | a :: b :: rest => b :: a :: swapBytePairs rest

/-- Models `KStringConvertUtf16LeToUtf16Be` (KString.c line 1220). -/
def KStringConvertUtf16LeToUtf16Be (Str : KString) : KString :=
  if KStringIsValid Str = false ∨ KS_GetEncodingFromField Str.meta ≠ .utf16le then KStringInvalid
  else
    KStringCreateWithEncoding (swapBytePairs (KStringBytes Str)) .utf16be

/-- Models `KStringConvertUtf16BeToUtf16Le` (KString.c line 1249). -/
def KStringConvertUtf16BeToUtf16Le (Str : KString) : KString :=
  if KStringIsValid Str = false ∨ KS_GetEncodingFromField Str.meta ≠ .utf16be then KStringInvalid
  else
    KStringCreateWithEncoding (swapBytePairs (KStringBytes Str)) .utf16le

/-!
## Well-formedness

The invariant every constructor establishes: the meta field is a 32-bit
non-sentinel value; a short string has the full 12-byte inline region; a
long string has a buffer of exactly the declared length and a stored
4-byte region equal to the first 4 buffer bytes.
-/

def KStringWF (s : KString) : Prop :=
  s.meta < 2 ^ 32 ∧ s.meta ≠ KSTRING_INVALID_LENGTH ∧
    (if KS_GetSizeFromField s.meta ≤ 12 then s.content.length = 12
     else s.buffer.length = KS_GetSizeFromField s.meta ∧ s.pfx = s.buffer.take 4)

instance (s : KString) : Decidable (KStringWF s) := by
  unfold KStringWF; infer_instance

/-- The full byte-wise comparison of two equal-length buffers, modelled
from the spec words for the refinement claim about the prefix
optimization: compare byte by byte, first difference decides. -/
def naiveByteWiseCompare : List Nat → List Nat → Int
  | [], _ => 0
  | _ :: _, [] => 0
  | a :: as, b :: bs =>
    if a < b then -1 else if b < a then 1 else naiveByteWiseCompare as bs

/-!
## Arithmetic of the meta field

The meta field of every constructed string is `Size ||| (tag <<< 30)` with
`Size < 2^30` and `tag < 4`; these lemmas convert between the bitwise
source form and the additive form `Size + tag * 2^30`.
-/

theorem KStringEncoding.toNat_lt (e : KStringEncoding) : e.toNat < 4 := by
  cases e <;> decide

theorem encodingOfBits_toNat (e : KStringEncoding) :
    KStringEncodingOfBits e.toNat = e := by
  cases e <;> rfl

theorem toNat_encodingOfBits {k : Nat} (hk : k < 4) :
    (KStringEncodingOfBits k).toNat = k := by
  interval_cases k <;> rfl

theorem low_and_encodingMask_eq_zero {n : Nat} (hn : n < 2 ^ 30) :
    n &&& 0xC0000000 = 0 := by
  apply Nat.eq_of_testBit_eq
  intro i
  simp only [Nat.testBit_and, Nat.zero_testBit]
  by_cases h : i < 30
  · have hc : (0xC0000000 : Nat).testBit i = false := by
      have h30 : (0xC0000000 : Nat) = 2 ^ 30 * 3 := by norm_num
      rw [h30, Nat.testBit_mul_pow_two]
      simp [Nat.not_le_of_lt h]
    simp [hc]
  · have hlt : n < 2 ^ i :=
      lt_of_lt_of_le hn (Nat.pow_le_pow_right (by norm_num) (Nat.le_of_not_lt h))
    simp [Nat.testBit_lt_two_pow hlt]

theorem high_and_encodingMask {k : Nat} (hk : k < 4) :
    (k * 2 ^ 30) &&& 0xC0000000 = k * 2 ^ 30 := by
  interval_cases k <;> decide

theorem packed_and_encodingMask {n k : Nat} (hn : n < 2 ^ 30) (hk : k < 4) :
    (n + k * 2 ^ 30) &&& 0xC0000000 = k * 2 ^ 30 := by
  have h1 : n + k * 2 ^ 30 = 2 ^ 30 * k ||| n := by
    rw [← Nat.mul_add_lt_is_or hn]
    ring
  rw [h1, Nat.and_distrib_right, low_and_encodingMask_eq_zero hn, Nat.or_zero,
    Nat.mul_comm, high_and_encodingMask hk]

theorem getSize_packed {n : Nat} (k : Nat) (hn : n < 2 ^ 30) :
    KS_GetSizeFromField (n + k * 2 ^ 30) = n := by
  unfold KS_GetSizeFromField KSTRING_SIZE_MASK
  rw [show (0x3FFFFFFF : Nat) = 2 ^ 30 - 1 by norm_num,
    Nat.and_pow_two_sub_one_eq_mod]
  omega

theorem getEncBits_packed {n k : Nat} (hn : n < 2 ^ 30) (hk : k < 4) :
    ((n + k * 2 ^ 30) &&& 0xC0000000) >>> 30 = k := by
  rw [packed_and_encodingMask hn hk, Nat.shiftRight_eq_div_pow,
    Nat.mul_div_cancel _ (by norm_num : 0 < 2 ^ 30)]

theorem getEnc_packed {n k : Nat} (hn : n < 2 ^ 30) (hk : k < 4) :
    KS_GetEncodingFromField (n + k * 2 ^ 30) = KStringEncodingOfBits k := by
  unfold KS_GetEncodingFromField KSTRING_ENCODING_MASK KSTRING_ENCODING_SHIFT
  rw [getEncBits_packed hn hk]

theorem createSizeField_packed {Size : Nat} (e : KStringEncoding)
    (h : Size ≤ KSTRING_SIZE_MASK) :
    KS_CreateSizeField Size e = Size + e.toNat * 2 ^ 30 := by
  unfold KS_CreateSizeField
  rw [if_neg (by unfold KSTRING_SIZE_MASK at h ⊢; omega)]
  rw [KSTRING_ENCODING_SHIFT, Nat.shiftLeft_eq, Nat.or_comm,
    Nat.mul_comm e.toNat (2 ^ 30),
    ← Nat.mul_add_lt_is_or (by unfold KSTRING_SIZE_MASK at h; omega) e.toNat]
  ring

/-- A packed meta field equals the sentinel exactly for the maximal
length together with the ANSI tag. -/
theorem packed_eq_sentinel_iff {n k : Nat} (hn : n < 2 ^ 30) :
    n + k * 2 ^ 30 = KSTRING_INVALID_LENGTH ↔ n = 2 ^ 30 - 1 ∧ k = 3 := by
  unfold KSTRING_INVALID_LENGTH
  omega

/-- Any 32-bit meta field decomposes into its packed form. -/
theorem meta_decompose {m : Nat} (hm : m < 2 ^ 32) :
    m = m % 2 ^ 30 + (m / 2 ^ 30) * 2 ^ 30 ∧ m % 2 ^ 30 < 2 ^ 30 ∧ m / 2 ^ 30 < 4 := by
  omega

theorem getSize_eq_mod {m : Nat} : KS_GetSizeFromField m = m % 2 ^ 30 := by
  unfold KS_GetSizeFromField KSTRING_SIZE_MASK
  rw [show (0x3FFFFFFF : Nat) = 2 ^ 30 - 1 by norm_num,
    Nat.and_pow_two_sub_one_eq_mod]

theorem getEnc_eq_div {m : Nat} (hm : m < 2 ^ 32) :
    KS_GetEncodingFromField m = KStringEncodingOfBits (m / 2 ^ 30) := by
  obtain ⟨hdec, hlt, hk⟩ := meta_decompose hm
  conv_lhs => rw [hdec]
  exact getEnc_packed hlt hk

theorem getSize_lt (m : Nat) : KS_GetSizeFromField m < 2 ^ 30 := by
  rw [getSize_eq_mod]; omega

/-!
## Properties of the byte comparison primitives
-/

theorem memcmpSign_eq_zero_iff : ∀ (l1 l2 : List Nat) (n : Nat),
    n ≤ l1.length → n ≤ l2.length →
    (memcmpSign l1 l2 n = 0 ↔ l1.take n = l2.take n)
  | _, _, 0, _, _ => by simp [memcmpSign]
  | a :: as, b :: bs, n + 1, h1, h2 => by
    simp only [memcmpSign, List.take_succ_cons]
    by_cases hab : a < b
    · simp only [if_pos hab]
      constructor
      · intro h; exact absurd h (by decide)
      · intro h; exact absurd (List.cons.injEq .. ▸ congrArg id h) (by
          simp; intro he; omega)
    · by_cases hba : b < a
      · simp only [if_neg hab, if_pos hba]
        constructor
        · intro h; exact absurd h (by decide)
        · intro h
          have : a = b := (List.cons.inj h).1
          omega
      · have hab' : a = b := by omega
        subst hab'
        simp only [if_neg hab, if_neg hba]
        rw [memcmpSign_eq_zero_iff as bs n (by simpa using h1) (by simpa using h2)]
        constructor
        · intro h; rw [h]
        · intro h; exact (List.cons.inj h).2

theorem memcmpSign_nil_left (l : List Nat) (n : Nat) :
    memcmpSign [] l (n + 1) = 0 := by
  cases l <;> rfl

theorem memcmpSign_nil_right (a : Nat) (as : List Nat) (n : Nat) :
    memcmpSign (a :: as) [] (n + 1) = 0 := rfl

theorem memcmpSign_congr (n : Nat) : ∀ (l1 l2 l1' l2' : List Nat),
    l1.take n = l1'.take n → l2.take n = l2'.take n →
    memcmpSign l1 l2 n = memcmpSign l1' l2' n := by
  induction n with
  | zero => intro l1 l2 l1' l2' _ _; simp [memcmpSign]
  | succ n ih =>
    intro l1 l2 l1' l2' h1 h2
    cases l1 with
    | nil =>
      have : l1' = [] := by
        have h := h1.symm
        simp only [List.take_nil] at h
        rcases List.take_eq_nil_iff.mp h with h | h
        · omega
        · exact h
      subst this
      rw [memcmpSign_nil_left, memcmpSign_nil_left]
    | cons a as =>
      cases l1' with
      | nil => simp at h1
      | cons a' as' =>
        simp only [List.take_succ_cons, List.cons.injEq] at h1
        obtain ⟨rfl, h1'⟩ := h1
        cases l2 with
        | nil =>
          have : l2' = [] := by
            have h := h2.symm
            simp only [List.take_nil] at h
            rcases List.take_eq_nil_iff.mp h with h | h
            · omega
            · exact h
          subst this
          rw [memcmpSign_nil_right, memcmpSign_nil_right]
        | cons b bs =>
          cases l2' with
          | nil => simp at h2
          | cons b' bs' =>
            simp only [List.take_succ_cons, List.cons.injEq] at h2
            obtain ⟨rfl, h2'⟩ := h2
            simp only [memcmpSign]
            rw [ih as bs as' bs' h1' h2']

theorem memcmpSign_stable : ∀ (l1 l2 : List Nat) (m n : Nat), m ≤ n →
    memcmpSign l1 l2 m ≠ 0 → memcmpSign l1 l2 n = memcmpSign l1 l2 m := by
  intro l1 l2 m
  induction m generalizing l1 l2 with
  | zero => intro n _ hne; simp [memcmpSign] at hne
  | succ m ih =>
    intro n hmn hne
    obtain ⟨n', rfl⟩ : ∃ n', n = n' + 1 := ⟨n - 1, by omega⟩
    cases l1 with
    | nil => rw [memcmpSign_nil_left, memcmpSign_nil_left]
    | cons a as =>
      cases l2 with
      | nil => rw [memcmpSign_nil_right, memcmpSign_nil_right]
      | cons b bs =>
        simp only [memcmpSign] at hne ⊢
        by_cases hab : a < b
        · simp [hab]
        · by_cases hba : b < a
          · simp [hab, hba]
          · simp only [if_neg hab, if_neg hba] at hne ⊢
            exact ih as bs n' (by omega) hne

theorem naive_eq_memcmpSign : ∀ (l1 l2 : List Nat), l1.length = l2.length →
    naiveByteWiseCompare l1 l2 = memcmpSign l1 l2 l1.length
  | [], [], _ => rfl
  | [], _ :: _, h => by simp at h
  | _ :: _, [], h => by simp at h
  | a :: as, b :: bs, h => by
    simp only [naiveByteWiseCompare, List.length_cons, memcmpSign]
    by_cases hab : a < b
    · simp [hab]
    · by_cases hba : b < a
      · simp [hab, hba]
      · simp only [if_neg hab, if_neg hba]
        exact naive_eq_memcmpSign as bs (by simpa using h)

/-!
## Constructor specification
-/

theorem createSizeField_big {Size : Nat} (e : KStringEncoding)
    (h : KSTRING_SIZE_MASK < Size) :
    KS_CreateSizeField Size e = KSTRING_INVALID_LENGTH := by
  unfold KS_CreateSizeField
  exact if_pos (Or.inl h)

theorem size_le_of_createSizeField_ne {Size : Nat} {e : KStringEncoding}
    (h : KS_CreateSizeField Size e ≠ KSTRING_INVALID_LENGTH) :
    Size ≤ KSTRING_SIZE_MASK := by
  by_contra hgt
  exact h (createSizeField_big e (Nat.lt_of_not_le hgt))

theorem createSizeField_getSize {Size : Nat} {e : KStringEncoding}
    (h : KS_CreateSizeField Size e ≠ KSTRING_INVALID_LENGTH) :
    KS_GetSizeFromField (KS_CreateSizeField Size e) = Size := by
  have hle := size_le_of_createSizeField_ne h
  rw [createSizeField_packed e hle]
  exact getSize_packed _ (by unfold KSTRING_SIZE_MASK at hle; omega)

theorem createSizeField_getEnc {Size : Nat} {e : KStringEncoding}
    (h : KS_CreateSizeField Size e ≠ KSTRING_INVALID_LENGTH) :
    KS_GetEncodingFromField (KS_CreateSizeField Size e) = e := by
  have hle := size_le_of_createSizeField_ne h
  rw [createSizeField_packed e hle,
    getEnc_packed (by unfold KSTRING_SIZE_MASK at hle; omega) e.toNat_lt,
    encodingOfBits_toNat]

theorem createSizeField_lt32 {Size : Nat} {e : KStringEncoding}
    (h : KS_CreateSizeField Size e ≠ KSTRING_INVALID_LENGTH) :
    KS_CreateSizeField Size e < 2 ^ 32 := by
  have hle := size_le_of_createSizeField_ne h
  rw [createSizeField_packed e hle]
  have := e.toNat_lt
  unfold KSTRING_SIZE_MASK at hle
  omega

theorem createWithEncoding_short_eq (pStr : List Nat) (e : KStringEncoding)
    (h : KS_CreateSizeField pStr.length e ≠ KSTRING_INVALID_LENGTH)
    (h12 : pStr.length ≤ 12) :
    KStringCreateWithEncoding pStr e =
      { meta := KS_CreateSizeField pStr.length e
        content := inlineContent pStr
        pfx := (inlineContent pStr).take 4
        buffer := []
        scls := .persistent } := by
  unfold KStringCreateWithEncoding
  rw [if_neg h, if_pos (by simp [KS_IsShortString, KSTRING_MAX_SHORT_LENGTH, h12])]

theorem createWithEncoding_long_eq (pStr : List Nat) (e : KStringEncoding)
    (h : KS_CreateSizeField pStr.length e ≠ KSTRING_INVALID_LENGTH)
    (h12 : ¬ pStr.length ≤ 12) :
    KStringCreateWithEncoding pStr e =
      { meta := KS_CreateSizeField pStr.length e
        content := List.replicate 12 0
        pfx := storedPrefixOf pStr
        buffer := pStr
        scls := .temporary } := by
  unfold KStringCreateWithEncoding
  rw [if_neg h, if_neg (by simp [KS_IsShortString, KSTRING_MAX_SHORT_LENGTH, h12])]

theorem createWithEncoding_meta (pStr : List Nat) (e : KStringEncoding)
    (h : KS_CreateSizeField pStr.length e ≠ KSTRING_INVALID_LENGTH) :
    (KStringCreateWithEncoding pStr e).meta = KS_CreateSizeField pStr.length e := by
  by_cases h12 : pStr.length ≤ 12
  · rw [createWithEncoding_short_eq pStr e h h12]
  · rw [createWithEncoding_long_eq pStr e h h12]

theorem createWithEncoding_valid (pStr : List Nat) (e : KStringEncoding)
    (h : KS_CreateSizeField pStr.length e ≠ KSTRING_INVALID_LENGTH) :
    KStringIsValid (KStringCreateWithEncoding pStr e) = true := by
  rw [KStringIsValid, createWithEncoding_meta pStr e h]
  simpa using h

theorem createWithEncoding_size (pStr : List Nat) (e : KStringEncoding)
    (h : KS_CreateSizeField pStr.length e ≠ KSTRING_INVALID_LENGTH) :
    KS_GetSizeFromField (KStringCreateWithEncoding pStr e).meta = pStr.length := by
  rw [createWithEncoding_meta pStr e h, createSizeField_getSize h]

theorem createWithEncoding_enc (pStr : List Nat) (e : KStringEncoding)
    (h : KS_CreateSizeField pStr.length e ≠ KSTRING_INVALID_LENGTH) :
    KStringGetEncoding (KStringCreateWithEncoding pStr e) = e := by
  rw [KStringGetEncoding, if_pos (createWithEncoding_valid pStr e h),
    createWithEncoding_meta pStr e h, createSizeField_getEnc h]

theorem createWithEncoding_isShort (pStr : List Nat) (e : KStringEncoding)
    (h : KS_CreateSizeField pStr.length e ≠ KSTRING_INVALID_LENGTH) :
    KStringIsShort (KStringCreateWithEncoding pStr e) = KS_IsShortString pStr.length := by
  rw [KStringIsShort, createWithEncoding_meta pStr e h, createSizeField_getSize h]

theorem createWithEncoding_bytes (pStr : List Nat) (e : KStringEncoding)
    (h : KS_CreateSizeField pStr.length e ≠ KSTRING_INVALID_LENGTH) :
    KStringBytes (KStringCreateWithEncoding pStr e) = pStr := by
  rw [KStringBytes, KStringData, createWithEncoding_isShort pStr e h,
    createWithEncoding_size pStr e h]
  by_cases h12 : pStr.length ≤ 12
  · rw [if_pos (by simp [KS_IsShortString, KSTRING_MAX_SHORT_LENGTH, h12])]
    rw [createWithEncoding_short_eq pStr e h h12]
    rw [inlineContent]
    exact List.take_left' rfl
  · rw [if_neg (by simp [KS_IsShortString, KSTRING_MAX_SHORT_LENGTH, h12])]
    rw [createWithEncoding_long_eq pStr e h h12]
    exact List.take_length pStr

theorem createWithEncoding_wf (pStr : List Nat) (e : KStringEncoding)
    (h : KS_CreateSizeField pStr.length e ≠ KSTRING_INVALID_LENGTH) :
    KStringWF (KStringCreateWithEncoding pStr e) := by
  refine ⟨?_, ?_, ?_⟩
  · rw [createWithEncoding_meta pStr e h]
    exact createSizeField_lt32 h
  · rw [createWithEncoding_meta pStr e h]
    exact h
  · rw [createWithEncoding_size pStr e h]
    by_cases h12 : pStr.length ≤ 12
    · rw [if_pos h12, createWithEncoding_short_eq pStr e h h12]
      simp [inlineContent, KSTRING_MAX_SHORT_LENGTH]
      omega
    · rw [if_neg h12, createWithEncoding_long_eq pStr e h h12]
      refine ⟨rfl, ?_⟩
      rw [storedPrefixOf]
      simp only [ge_iff_le]
      rw [if_pos (by omega : 4 ≤ pStr.length)]
      simp

/-!
## Comparison characterization under well-formedness
-/

theorem isShort_iff {s : KString} :
    KStringIsShort s = true ↔ KS_GetSizeFromField s.meta ≤ 12 := by
  simp [KStringIsShort, KS_IsShortString, KSTRING_MAX_SHORT_LENGTH]

theorem wf_content_length {s : KString} (h : KStringWF s)
    (hs : KStringIsShort s = true) : s.content.length = 12 := by
  have h12 := isShort_iff.mp hs
  have := h.2.2
  rwa [if_pos h12] at this

theorem wf_long {s : KString} (h : KStringWF s)
    (hs : KStringIsShort s = false) :
    s.buffer.length = KS_GetSizeFromField s.meta ∧ s.pfx = s.buffer.take 4 := by
  have h12 : ¬ KS_GetSizeFromField s.meta ≤ 12 := by
    intro hle
    rw [isShort_iff.mpr hle] at hs
    cases hs
  have := h.2.2
  rwa [if_neg h12] at this

theorem bytes_short {s : KString} (hs : KStringIsShort s = true) :
    KStringBytes s = s.content.take (KS_GetSizeFromField s.meta) := by
  rw [KStringBytes, KStringData, if_pos hs]

theorem bytes_long {s : KString} (h : KStringWF s)
    (hs : KStringIsShort s = false) : KStringBytes s = s.buffer := by
  rw [KStringBytes, KStringData, if_neg (by simp [hs])]
  rw [← (wf_long h hs).1]
  exact List.take_length _

theorem bytes_length {s : KString} (h : KStringWF s) :
    (KStringBytes s).length = KS_GetSizeFromField s.meta := by
  by_cases hs : KStringIsShort s = true
  · rw [bytes_short hs, List.length_take_of_le]
    rw [wf_content_length h hs]
    exact isShort_iff.mp hs
  · rw [bytes_long h (by simpa using hs)]
    exact (wf_long h (by simpa using hs)).1

theorem compare_eq_zero_iff {a b : KString} (ha : KStringWF a) (hb : KStringWF b) :
    (KStringCompare a b = 0 ↔
      (KS_GetSizeFromField a.meta = KS_GetSizeFromField b.meta ∧
        KStringBytes a = KStringBytes b)) := by
  unfold KStringCompare
  by_cases hn : KS_GetSizeFromField a.meta = KS_GetSizeFromField b.meta
  · rw [if_neg (by simpa using hn)]
    have hshort_eq : KStringIsShort a = KStringIsShort b := by
      rw [KStringIsShort, KStringIsShort, hn]
    by_cases hsa : KStringIsShort a = true
    · have hsb : KStringIsShort b = true := hshort_eq ▸ hsa
      rw [if_pos ⟨hsa, hsb⟩]
      have h12 : KS_GetSizeFromField a.meta ≤ 12 := isShort_iff.mp hsa
      rw [memcmpSign_eq_zero_iff a.content b.content _
        (by rw [wf_content_length ha hsa]; exact h12)
        (by rw [wf_content_length hb hsb]; omega)]
      rw [bytes_short hsa, bytes_short hsb, hn]
      simp [hn]
    · have hsb : KStringIsShort b ≠ true := fun hh => hsa (hshort_eq ▸ hh)
      have hsa' : KStringIsShort a = false := by simpa using hsa
      have hsb' : KStringIsShort b = false := by simpa using hsb
      rw [if_neg (by simp [hsa])]
      rw [if_neg (by simp [hsa, hsb])]
      have hla := wf_long ha hsa'
      have hlb := wf_long hb hsb'
      have h12 : ¬ KS_GetSizeFromField a.meta ≤ 12 := fun hle => hsa (isShort_iff.mpr hle)
      have hpfx : memcmpSign a.pfx b.pfx 4 = memcmpSign a.buffer b.buffer 4 := by
        apply memcmpSign_congr
        · rw [hla.2, List.take_take]; simp
        · rw [hlb.2, List.take_take]; simp
      by_cases hp : memcmpSign a.buffer b.buffer 4 = 0
      · rw [if_neg (by rw [hpfx]; simpa using hp)]
        rw [memcmpSign_eq_zero_iff a.buffer b.buffer _ (le_of_eq hla.1.symm)
          (by rw [hlb.1, hn])]
        rw [bytes_long ha hsa', bytes_long hb hsb']
        constructor
        · intro hh
          refine ⟨hn, ?_⟩
          have h1 : a.buffer.take (KS_GetSizeFromField a.meta) = a.buffer := by
            rw [← hla.1]; exact List.take_length _
          have h2 : b.buffer.take (KS_GetSizeFromField a.meta) = b.buffer := by
            rw [hn, ← hlb.1]; exact List.take_length _
          rw [← h1, ← h2, hh]
        · intro ⟨_, hh⟩
          rw [hh]
      · rw [if_pos (by rw [hpfx]; simpa using hp)]
        constructor
        · intro hh
          exact absurd (hpfx.symm.trans hh) (by simpa using hp)
        · intro ⟨_, hh⟩
          exfalso
          apply hp
          rw [bytes_long ha hsa', bytes_long hb hsb'] at hh
          rw [hh]
          exact (memcmpSign_eq_zero_iff b.buffer b.buffer 4
            (by rw [hlb.1, ← hn]; omega) (by rw [hlb.1, ← hn]; omega)).mpr rfl
  · rw [if_pos (by simpa using hn)]
    constructor
    · intro hh
      by_cases hlt : KS_GetSizeFromField a.meta < KS_GetSizeFromField b.meta
      · rw [if_pos hlt] at hh; cases hh
      · rw [if_neg hlt] at hh; cases hh
    · intro ⟨hh, _⟩
      exact absurd hh hn

theorem equals_iff {a b : KString} (ha : KStringWF a) (hb : KStringWF b) :
    (KStringEquals a b = true ↔
      (KS_GetSizeFromField a.meta = KS_GetSizeFromField b.meta ∧
        KStringBytes a = KStringBytes b)) := by
  rw [KStringEquals, beq_iff_eq]
  exact compare_eq_zero_iff ha hb

theorem startsWith_iff {s p : KString} (hs : KStringWF s) (hp : KStringWF p)
    (hk : KS_GetSizeFromField p.meta ≤ KS_GetSizeFromField s.meta) :
    (KStringStartsWith s p = true ↔
      (KStringBytes s).take (KS_GetSizeFromField p.meta) = KStringBytes p) := by
  unfold KStringStartsWith
  rw [if_neg (by omega : ¬ KS_GetSizeFromField p.meta > KS_GetSizeFromField s.meta)]
  by_cases hk0 : KS_GetSizeFromField p.meta = 0
  · rw [if_pos hk0, hk0]
    have hnil : KStringBytes p = [] :=
      List.eq_nil_of_length_eq_zero (by rw [bytes_length hp, hk0])
    simp [hnil]
  · rw [if_neg hk0]
    by_cases hss : KStringIsShort s = true
    · have hn12 : KS_GetSizeFromField s.meta ≤ 12 := isShort_iff.mp hss
      have hsp : KStringIsShort p = true := isShort_iff.mpr (by omega)
      rw [if_pos (And.intro hss hsp), beq_iff_eq]
      have hL : (KStringBytes s).take (KS_GetSizeFromField p.meta) =
          s.content.take (KS_GetSizeFromField p.meta) := by
        rw [bytes_short hss, List.take_take]
        congr 1
        omega
      rw [hL, bytes_short hsp]
      exact memcmpSign_eq_zero_iff s.content p.content _
        (by rw [wf_content_length hs hss]; omega)
        (by rw [wf_content_length hp hsp]; omega)
    · have hss' : KStringIsShort s = false := by simpa using hss
      have hn12 : ¬ KS_GetSizeFromField s.meta ≤ 12 := fun hh => hss (isShort_iff.mpr hh)
      have hla := wf_long hs hss'
      have hnand : ¬ (KStringIsShort s = true ∧ KStringIsShort p = true) :=
        fun hh => hss hh.1
      rw [if_neg hnand, if_neg hss]
      have hL : (KStringBytes s).take (KS_GetSizeFromField p.meta) =
          s.buffer.take (KS_GetSizeFromField p.meta) := by
        rw [bytes_long hs hss']
      by_cases hsp : KStringIsShort p = true
      · have hk12 : KS_GetSizeFromField p.meta ≤ 12 := isShort_iff.mp hsp
        rw [if_pos hsp]
        by_cases hk4 : KS_GetSizeFromField p.meta ≤ 4
        · rw [if_pos hk4, beq_iff_eq]
          have hcongr : memcmpSign s.pfx p.content (KS_GetSizeFromField p.meta) =
              memcmpSign s.buffer p.content (KS_GetSizeFromField p.meta) := by
            apply memcmpSign_congr
            · rw [hla.2, List.take_take]
              congr 1
              omega
            · rfl
          rw [hcongr, hL, bytes_short hsp]
          exact memcmpSign_eq_zero_iff s.buffer p.content _
            (by rw [hla.1]; omega) (by rw [wf_content_length hp hsp]; omega)
        · rw [if_neg hk4, beq_iff_eq, hL, bytes_short hsp]
          exact memcmpSign_eq_zero_iff s.buffer p.content _
            (by rw [hla.1]; omega) (by rw [wf_content_length hp hsp]; omega)
      · have hsp' : KStringIsShort p = false := by simpa using hsp
        have hk12 : ¬ KS_GetSizeFromField p.meta ≤ 12 := fun hh => hsp (isShort_iff.mpr hh)
        have hlb := wf_long hp hsp'
        rw [if_neg hsp]
        rw [if_neg (by omega : ¬ KS_GetSizeFromField p.meta ≤ 4), beq_iff_eq]
        rw [hL, bytes_long hp hsp']
        rw [memcmpSign_eq_zero_iff s.buffer p.buffer _
          (by rw [hla.1]; omega) (by rw [hlb.1])]
        constructor
        · intro hh
          rw [hh, ← hlb.1, List.take_length]
        · intro hh
          rw [hh, ← hlb.1, List.take_length]

/-!
## Substring and concat reduce to the constructor
-/

theorem wf_valid {s : KString} (hs : KStringWF s) : KStringIsValid s = true := by
  rw [KStringIsValid]
  simpa using hs.2.1

theorem encodingOfBits_eq_ansi {j : Nat} (hj : j < 4) :
    KStringEncodingOfBits j = .ansi ↔ j = 3 := by
  interval_cases j <;> simp [KStringEncodingOfBits]

/-- For a well-formed string, re-packing any length bounded by its own
length with its own encoding can never produce the sentinel (the string
itself would have had the sentinel meta). -/
theorem wf_createSizeField_ne {s : KString} (hs : KStringWF s) {L : Nat}
    (hL : L ≤ KS_GetSizeFromField s.meta) :
    KS_CreateSizeField L (KS_GetEncodingFromField s.meta) ≠ KSTRING_INVALID_LENGTH := by
  intro hcontra
  have hn := getSize_lt s.meta
  have hmask : L ≤ KSTRING_SIZE_MASK := by unfold KSTRING_SIZE_MASK; omega
  rw [createSizeField_packed _ hmask] at hcontra
  have h30 : L < 2 ^ 30 := by unfold KSTRING_SIZE_MASK at hmask; omega
  obtain ⟨hLm, ht⟩ := (packed_eq_sentinel_iff h30).mp hcontra
  have hdiv : s.meta / 2 ^ 30 < 4 := by
    have := hs.1
    omega
  rw [getEnc_eq_div hs.1] at ht
  rw [toNat_encodingOfBits hdiv] at ht
  have hmod : KS_GetSizeFromField s.meta = s.meta % 2 ^ 30 := getSize_eq_mod
  apply hs.2.1
  unfold KSTRING_INVALID_LENGTH
  omega

theorem substring_eq_create {s : KString} (hs : KStringWF s) (Offset Size : Nat)
    (hoff : Offset < KS_GetSizeFromField s.meta)
    (hnw : Offset + Size < SIZE_T_MOD) :
    KStringSubstring s Offset Size =
      KStringCreateWithEncoding
        (((KStringData s).drop Offset).take
          (min Size (KS_GetSizeFromField s.meta - Offset)))
        (KS_GetEncodingFromField s.meta) := by
  have hn := getSize_lt s.meta
  set n := KS_GetSizeFromField s.meta with hndef
  set L := min Size (n - Offset) with hLdef
  have hdata_len : n ≤ (KStringData s).length := by
    rw [KStringData]
    by_cases hss : KStringIsShort s = true
    · rw [if_pos hss, wf_content_length hs hss]
      exact isShort_iff.mp hss
    · rw [if_neg hss, (wf_long hs (by simpa using hss)).1]
  have hslice : (((KStringData s).drop Offset).take L).length = L := by
    rw [List.length_take_of_le]
    rw [List.length_drop]
    omega
  have hLn : L ≤ n := by omega
  have hne := wf_createSizeField_ne hs hLn
  unfold KStringSubstring
  rw [if_neg (by simp [wf_valid hs])]
  rw [if_neg (by omega : ¬ Offset ≥ n)]
  rw [Nat.mod_eq_of_lt hnw]
  have hlocal : (if Offset + Size > n then n - Offset else Size) = L := by
    by_cases hcl : Offset + Size > n
    · rw [if_pos hcl]; omega
    · rw [if_neg hcl]; omega
  rw [hlocal]
  rw [if_neg (by unfold KSTRING_SIZE_MASK; omega : ¬ L > KSTRING_SIZE_MASK)]
  rw [if_neg hne]
  by_cases h12 : L ≤ 12
  · rw [if_pos (by simp [KS_IsShortString, KSTRING_MAX_SHORT_LENGTH, h12])]
    rw [createWithEncoding_short_eq _ _ (by rw [hslice]; exact hne) (by rw [hslice]; exact h12)]
    rw [inlineContent, hslice, KSTRING_MAX_SHORT_LENGTH]
  · rw [if_neg (by simp [KS_IsShortString, KSTRING_MAX_SHORT_LENGTH, h12])]
    rw [createWithEncoding_long_eq _ _ (by rw [hslice]; exact hne) (by rw [hslice]; exact h12)]
    rw [storedPrefixOf]
    simp only [hslice]
    rw [if_pos (by omega : L ≥ 4)]
    simp

theorem concat_eq_create {a b : KString} (ha : KStringWF a) (hb : KStringWF b) :
    KStringConcat a b =
      KStringCreateWithEncoding (KStringBytes a ++ KStringBytes b)
        (KS_GetEncodingFromField a.meta) := by
  have hna := getSize_lt a.meta
  have hnb := getSize_lt b.meta
  have hlen : (KStringBytes a ++ KStringBytes b).length =
      KS_GetSizeFromField a.meta + KS_GetSizeFromField b.meta := by
    rw [List.length_append, bytes_length ha, bytes_length hb]
  unfold KStringConcat
  rw [if_neg (by simp [wf_valid ha, wf_valid hb])]
  rw [if_neg (by unfold SIZE_T_MOD; omega :
    ¬ KS_GetSizeFromField a.meta > SIZE_T_MOD - 1 - KS_GetSizeFromField b.meta)]
  by_cases htot : KS_GetSizeFromField a.meta + KS_GetSizeFromField b.meta > KSTRING_SIZE_MASK
  · rw [if_pos htot]
    rw [KStringCreateWithEncoding]
    rw [if_pos (by rw [hlen]; exact createSizeField_big _ htot)]
  · rw [if_neg htot]
    by_cases hsent : KS_CreateSizeField
        (KS_GetSizeFromField a.meta + KS_GetSizeFromField b.meta)
        (KS_GetEncodingFromField a.meta) = KSTRING_INVALID_LENGTH
    · rw [if_pos hsent]
      rw [KStringCreateWithEncoding]
      rw [if_pos (by rw [hlen]; exact hsent)]
    · rw [if_neg hsent]
      by_cases h12 : KS_GetSizeFromField a.meta + KS_GetSizeFromField b.meta ≤ 12
      · rw [if_pos (by simp [KS_IsShortString, KSTRING_MAX_SHORT_LENGTH, h12])]
        rw [createWithEncoding_short_eq _ _ (by rw [hlen]; exact hsent)
          (by rw [hlen]; exact h12)]
        rw [inlineContent, hlen, KSTRING_MAX_SHORT_LENGTH]
        rw [List.take_of_length_le (le_of_eq hlen)]
      · rw [if_neg (by simp [KS_IsShortString, KSTRING_MAX_SHORT_LENGTH, h12])]
        rw [createWithEncoding_long_eq _ _ (by rw [hlen]; exact hsent)
          (by rw [hlen]; exact h12)]
        rw [storedPrefixOf]
        simp only [hlen]
        rw [if_pos (by omega :
          KS_GetSizeFromField a.meta + KS_GetSizeFromField b.meta ≥ 4)]
        simp

/-!
## Byte-order swap lemmas
-/

theorem swapBytePairs_length : ∀ l : List Nat, (swapBytePairs l).length = l.length
  | [] => rfl
  | [_] => rfl
  | _ :: _ :: rest => by
    simp only [swapBytePairs, List.length_cons]
    rw [swapBytePairs_length rest]

theorem swapBytePairs_involutive : ∀ l : List Nat, l.length % 2 = 0 →
    swapBytePairs (swapBytePairs l) = l
  | [], _ => rfl
  | [_], h => by simp at h
  | a :: b :: rest, h => by
    simp only [swapBytePairs]
    rw [swapBytePairs_involutive rest (by simp only [List.length_cons] at h; omega)]

theorem createSizeField_ne_sentinel {Size : Nat} {e : KStringEncoding}
    (h1 : Size ≤ KSTRING_SIZE_MASK) (h2 : e ≠ .ansi) :
    KS_CreateSizeField Size e ≠ KSTRING_INVALID_LENGTH := by
  rw [createSizeField_packed e h1]
  intro hc
  have h30 : Size < 2 ^ 30 := by unfold KSTRING_SIZE_MASK at h1; omega
  obtain ⟨_, ht⟩ := (packed_eq_sentinel_iff h30).mp hc
  cases e
  · simp [KStringEncoding.toNat] at ht
  · simp [KStringEncoding.toNat] at ht
  · simp [KStringEncoding.toNat] at ht
  · exact h2 rfl

theorem getEncFromField_of_valid {s : KString} (h : KStringIsValid s = true) :
    KS_GetEncodingFromField s.meta = KStringGetEncoding s := by
  rw [KStringGetEncoding, if_pos h]

theorem size_of_valid {s : KString} (h : KStringIsValid s = true) :
    KStringSize s = KS_GetSizeFromField s.meta := by
  rw [KStringSize, if_pos h]

/-!
## Claim theorems
-/

/-- C1: `KStringCompareIgnoreCase` does not first compare byte lengths as
the specification states: it compares the raw 32-bit meta fields
(length with the encoding bits included).  At the failing input
A = byte 0x61 tagged UTF-8, B = byte 0x41 tagged UTF-16LE, the byte
lengths are equal (1 = 1) and the ASCII case fold makes the contents
equal, so the specified algorithm yields 0, but the code returns -1
because the meta fields 1 and 1 + 2^30 differ. -/
theorem c1_compare_ignore_case_uses_raw_meta :
    KStringSize (KStringCreateWithEncoding [97] .utf8) =
      KStringSize (KStringCreateWithEncoding [65] .utf16le) ∧
    KS_MemcmpIgnoreCase (KStringBytes (KStringCreateWithEncoding [97] .utf8))
      (KStringBytes (KStringCreateWithEncoding [65] .utf16le)) 1 = 0 ∧
    KStringCompareIgnoreCase (KStringCreateWithEncoding [97] .utf8)
      (KStringCreateWithEncoding [65] .utf16le) = -1 := by
  decide

/-- C2: the UTF-8 to UTF-16LE conversion drops the final unit of an
ASCII input (loop guard `Utf16Count < MaxUtf16Size - 1` with
`MaxUtf16Size = Utf8Size`), so the round trip fails on the one-byte
string "a": converting yields an empty UTF-16LE string and converting
back yields an empty UTF-8 string.  The surrogate-pair half of the
claim does hold in isolation: U+1F600 converts to 4 UTF-16LE bytes and
round-trips. -/
theorem c2_roundtrip_fails_on_single_ascii :
    KStringIsValid (KStringCreate [97]) = true ∧
    KStringSize (KStringCreate [97]) = 1 ∧
    KStringSize (KStringConvertUtf8ToUtf16Le (KStringCreate [97])) = 0 ∧
    KStringEquals
      (KStringConvertUtf16LeToUtf8 (KStringConvertUtf8ToUtf16Le (KStringCreate [97])))
      (KStringCreate [97]) = false ∧
    KStringSize (KStringConvertUtf8ToUtf16Le (KStringCreate [0xF0, 0x9F, 0x98, 0x80])) = 4 ∧
    KStringEquals
      (KStringConvertUtf16LeToUtf8
        (KStringConvertUtf8ToUtf16Le (KStringCreate [0xF0, 0x9F, 0x98, 0x80])))
      (KStringCreate [0xF0, 0x9F, 0x98, 0x80]) = true := by
  decide

/-- C10: on a value carrying the invalid sentinel meta, `KStringSize`
returns 0 and `KStringGetEncoding` returns the UTF-8 tag. -/
theorem c10_invalid_accessor_defaults (s : KString) (h : KStringIsValid s = false) :
    KStringSize s = 0 ∧ KStringGetEncoding s = .utf8 := by
  rw [KStringSize, if_neg (by simp [h]), KStringGetEncoding, if_neg (by simp [h])]
  exact ⟨rfl, rfl⟩

theorem c10_invalid_accessor_defaults_witness :
    KStringSize KStringInvalid = 0 ∧ KStringGetEncoding KStringInvalid = .utf8 :=
  c10_invalid_accessor_defaults KStringInvalid (by decide)

/-- C3 counterexample: the claim "for every length ≤ 2^30−1 and every
encoding tag, packing yields a non-sentinel meta value" fails at
length 2^30−1 with the ANSI tag: `0x3FFFFFFF ||| (3 <<< 30)` is exactly
the sentinel `0xFFFFFFFF`. -/
theorem c3_counterexample :
    2 ^ 30 - 1 ≤ 2 ^ 30 - 1 ∧
    KS_CreateSizeField (2 ^ 30 - 1) KStringEncoding.ansi = KSTRING_INVALID_LENGTH := by
  decide

/-- C3 (amended): the codec produces the sentinel exactly when the
length exceeds 2^30−1 or when the length equals 2^30−1 and the tag is
ANSI; and the sentinel meta is still unreachable from any successful
construction, because the constructors reject a packed sentinel. -/
theorem c3_sentinel_characterization :
    (∀ (Size : Nat) (e : KStringEncoding),
      KS_CreateSizeField Size e = KSTRING_INVALID_LENGTH ↔
        (2 ^ 30 - 1 < Size ∨ (Size = 2 ^ 30 - 1 ∧ e = .ansi))) ∧
    (∀ (pStr : List Nat) (e : KStringEncoding),
      KStringIsValid (KStringCreateWithEncoding pStr e) = true →
        (KStringCreateWithEncoding pStr e).meta ≠ KSTRING_INVALID_LENGTH) := by
  constructor
  · intro Size e
    have hmask : KSTRING_SIZE_MASK = 2 ^ 30 - 1 := by unfold KSTRING_SIZE_MASK; norm_num
    by_cases hbig : 2 ^ 30 - 1 < Size
    · rw [createSizeField_big e (by omega)]
      constructor
      · intro _
        exact Or.inl (by omega)
      · intro _
        rfl
    · rw [createSizeField_packed e (by omega)]
      rw [packed_eq_sentinel_iff (by omega)]
      have htn : e.toNat = 3 ↔ e = .ansi := by
        cases e <;> simp [KStringEncoding.toNat]
      constructor
      · intro ⟨h1, h2⟩
        exact Or.inr ⟨h1, htn.mp h2⟩
      · intro hh
        rcases hh with hh | ⟨h1, h2⟩
        · omega
        · exact ⟨h1, htn.mpr h2⟩
  · intro pStr e hv
    intro hcontra
    rw [KStringIsValid, hcontra] at hv
    simp at hv

theorem c3_sentinel_characterization_witness :
    (KS_CreateSizeField 5 KStringEncoding.utf8 = KSTRING_INVALID_LENGTH ↔
      (2 ^ 30 - 1 < 5 ∨ (5 = 2 ^ 30 - 1 ∧ KStringEncoding.utf8 = .ansi))) ∧
    (KStringCreateWithEncoding [97] .utf8).meta ≠ KSTRING_INVALID_LENGTH :=
  ⟨c3_sentinel_characterization.1 5 .utf8,
   c3_sentinel_characterization.2 [97] .utf8 (by decide)⟩

/-- C4 counterexample: the claim "substring returns the invalid sentinel
if and only if offset ≥ size(s)" fails when `offset + len` wraps the
64-bit `size_t`: on the 3-byte string "abc" with offset 1 and
len = 2^64−1 the wrapped sum 0 skips the clamp, the unclamped length
exceeds the 30-bit cap, and the code returns invalid although
offset < size(s). -/
theorem c4_counterexample :
    1 < KStringSize (KStringCreate [97, 98, 99]) ∧
    KStringIsValid (KStringSubstring (KStringCreate [97, 98, 99]) 1 (2 ^ 64 - 1)) = false := by
  decide

/-- C4 (amended): for a well-formed string and machine-representable
offset and len, substring is invalid exactly when offset ≥ size(s) or
offset + len overflows `size_t`; in the valid case the size is
min(len, size(s) − offset), the bytes are the corresponding bytes of s,
and the encoding tag is inherited. -/
theorem c4_substring_spec (s : KString) (Offset Len : Nat)
    (hwf : KStringWF s) (hOff : Offset < SIZE_T_MOD) (hLen : Len < SIZE_T_MOD) :
    (KStringIsValid (KStringSubstring s Offset Len) = true ↔
      (Offset < KStringSize s ∧ Offset + Len < SIZE_T_MOD)) ∧
    (Offset < KStringSize s → Offset + Len < SIZE_T_MOD →
      KStringSize (KStringSubstring s Offset Len) = min Len (KStringSize s - Offset) ∧
      KStringBytes (KStringSubstring s Offset Len) =
        ((KStringBytes s).drop Offset).take (min Len (KStringSize s - Offset)) ∧
      KStringGetEncoding (KStringSubstring s Offset Len) = KStringGetEncoding s) := by
  have hvs := wf_valid hwf
  have hsz : KStringSize s = KS_GetSizeFromField s.meta := size_of_valid hvs
  have hn := getSize_lt s.meta
  have hdata_len : KS_GetSizeFromField s.meta ≤ (KStringData s).length := by
    rw [KStringData]
    by_cases hss : KStringIsShort s = true
    · rw [if_pos hss, wf_content_length hwf hss]
      exact isShort_iff.mp hss
    · rw [if_neg hss, (wf_long hwf (by simpa using hss)).1]
  have hmain : Offset < KS_GetSizeFromField s.meta → Offset + Len < SIZE_T_MOD →
      KStringIsValid (KStringSubstring s Offset Len) = true ∧
      KStringSize (KStringSubstring s Offset Len) =
        min Len (KS_GetSizeFromField s.meta - Offset) ∧
      KStringBytes (KStringSubstring s Offset Len) =
        ((KStringBytes s).drop Offset).take (min Len (KS_GetSizeFromField s.meta - Offset)) ∧
      KStringGetEncoding (KStringSubstring s Offset Len) = KStringGetEncoding s := by
    intro hoff hnw
    rw [substring_eq_create hwf Offset Len hoff hnw]
    set L := min Len (KS_GetSizeFromField s.meta - Offset) with hLdef
    have hLn : L ≤ KS_GetSizeFromField s.meta := by omega
    have hslice : (((KStringData s).drop Offset).take L).length = L := by
      rw [List.length_take_of_le]
      rw [List.length_drop]
      omega
    have hne : KS_CreateSizeField (((KStringData s).drop Offset).take L).length
        (KS_GetEncodingFromField s.meta) ≠ KSTRING_INVALID_LENGTH := by
      rw [hslice]
      exact wf_createSizeField_ne hwf hLn
    refine ⟨createWithEncoding_valid _ _ hne, ?_, ?_, ?_⟩
    · rw [size_of_valid (createWithEncoding_valid _ _ hne),
        createWithEncoding_size _ _ hne, hslice]
    · rw [createWithEncoding_bytes _ _ hne]
      rw [KStringBytes, List.drop_take, List.take_take,
        Nat.min_eq_left (by omega : L ≤ KS_GetSizeFromField s.meta - Offset)]
    · rw [createWithEncoding_enc _ _ hne, getEncFromField_of_valid hvs]
  constructor
  · constructor
    · intro hv
      by_contra hcon
      rw [not_and_or] at hcon
      rcases hcon with hcon | hcon
      · have hoff : Offset ≥ KS_GetSizeFromField s.meta := by omega
        rw [KStringSubstring, if_neg (by simp [hvs]), if_pos hoff] at hv
        simp [KStringIsValid, KStringInvalid] at hv
      · have hwrap : Offset + Len ≥ SIZE_T_MOD := by omega
        by_cases hoff : Offset ≥ KS_GetSizeFromField s.meta
        · rw [KStringSubstring, if_neg (by simp [hvs]), if_pos hoff] at hv
          simp [KStringIsValid, KStringInvalid] at hv
        · have hoff' : Offset < KS_GetSizeFromField s.meta := by omega
          unfold SIZE_T_MOD at hOff hLen hwrap
          have hmod : (Offset + Len) % SIZE_T_MOD = Offset + Len - 2 ^ 64 := by
            unfold SIZE_T_MOD
            omega
          have hnoclamp : ¬ (Offset + Len) % SIZE_T_MOD > KS_GetSizeFromField s.meta := by
            rw [hmod]
            omega
          have hLbig : Len > KSTRING_SIZE_MASK := by
            unfold KSTRING_SIZE_MASK
            omega
          rw [KStringSubstring, if_neg (by simp [hvs]), if_neg hoff,
            if_neg hnoclamp, if_pos hLbig] at hv
          simp [KStringIsValid, KStringInvalid] at hv
    · intro ⟨h1, h2⟩
      exact (hmain (by omega) h2).1
  · intro h1 h2
    have := hmain (by omega) h2
    rw [hsz]
    exact ⟨this.2.1, this.2.2.1, this.2.2.2⟩

theorem c4_substring_spec_witness :
    KStringIsValid (KStringSubstring
      (KStringCreate [80, 114, 111, 103, 114, 97, 109, 109, 105, 110, 103]) 0 7) = true ∧
    KStringSize (KStringSubstring
      (KStringCreate [80, 114, 111, 103, 114, 97, 109, 109, 105, 110, 103]) 0 7) = 7 := by
  have h := c4_substring_spec
    (KStringCreate [80, 114, 111, 103, 114, 97, 109, 109, 105, 110, 103]) 0 7
    (by decide) (by decide) (by decide)
  refine ⟨(h.1).mpr (by decide), ?_⟩
  rw [(h.2 (by decide) (by decide)).1]
  decide

/-- C5 counterexample: for the empty string s = p, `starts_with(s, p)` is
true (empty candidate always matches) but `substring(s, 0, 0)` is the
invalid sentinel (offset 0 ≥ size 0), so `equals(substring(s,0,size(p)), p)`
is false and the claimed equivalence fails. -/
theorem c5_counterexample :
    KStringSize (KStringCreate []) ≤ KStringSize (KStringCreate []) ∧
    KStringStartsWith (KStringCreate []) (KStringCreate []) = true ∧
    KStringEquals
      (KStringSubstring (KStringCreate []) 0 (KStringSize (KStringCreate [])))
      (KStringCreate []) = false := by
  decide

/-- C5 (amended): for well-formed strings with size(p) ≤ size(s) and a
nonempty subject s, `starts_with(s, p)` agrees with
`equals(substring(s, 0, size(p)), p)`. -/
theorem c5_starts_with_substring (s p : KString)
    (hs : KStringWF s) (hp : KStringWF p)
    (hpos : 1 ≤ KStringSize s)
    (hle : KStringSize p ≤ KStringSize s) :
    KStringStartsWith s p = KStringEquals (KStringSubstring s 0 (KStringSize p)) p := by
  have hvs := wf_valid hs
  have hvp := wf_valid hp
  have hszs : KStringSize s = KS_GetSizeFromField s.meta := size_of_valid hvs
  have hszp : KStringSize p = KS_GetSizeFromField p.meta := size_of_valid hvp
  have hn := getSize_lt s.meta
  have hk := getSize_lt p.meta
  have hkn : KS_GetSizeFromField p.meta ≤ KS_GetSizeFromField s.meta := by omega
  have hdata_len : KS_GetSizeFromField s.meta ≤ (KStringData s).length := by
    rw [KStringData]
    by_cases hss : KStringIsShort s = true
    · rw [if_pos hss, wf_content_length hs hss]
      exact isShort_iff.mp hss
    · rw [if_neg hss, (wf_long hs (by simpa using hss)).1]
  rw [hszp]
  rw [substring_eq_create hs 0 (KS_GetSizeFromField p.meta) (by omega)
    (by unfold SIZE_T_MOD; omega)]
  set L := min (KS_GetSizeFromField p.meta) (KS_GetSizeFromField s.meta - 0) with hLdef
  have hLk : L = KS_GetSizeFromField p.meta := by omega
  have hslice : (((KStringData s).drop 0).take L).length = L := by
    rw [List.length_take_of_le]
    rw [List.length_drop]
    omega
  have hne : KS_CreateSizeField (((KStringData s).drop 0).take L).length
      (KS_GetEncodingFromField s.meta) ≠ KSTRING_INVALID_LENGTH := by
    rw [hslice]
    exact wf_createSizeField_ne hs (by omega)
  have hsz_create : KS_GetSizeFromField (KStringCreateWithEncoding
      (((KStringData s).drop 0).take L) (KS_GetEncodingFromField s.meta)).meta = L := by
    rw [createWithEncoding_size _ _ hne, hslice]
  have hbytes_create : KStringBytes (KStringCreateWithEncoding
      (((KStringData s).drop 0).take L) (KS_GetEncodingFromField s.meta)) =
      ((KStringData s).drop 0).take L := createWithEncoding_bytes _ _ hne
  have hbb : (KStringBytes s).take (KS_GetSizeFromField p.meta) =
      ((KStringData s).drop 0).take L := by
    rw [KStringBytes, List.take_take, hLk, List.drop_zero]
    have hmin : KS_GetSizeFromField p.meta ⊓ KS_GetSizeFromField s.meta =
        KS_GetSizeFromField p.meta := by omega
    rw [hmin]
  rw [Bool.eq_iff_iff, startsWith_iff hs hp hkn,
    equals_iff (createWithEncoding_wf _ _ hne) hp,
    hsz_create, hbytes_create, hLk, hbb, hLk]
  simp

/-!
## C9: zero padding of the inline region
-/

/-- The inline region holds only zeros past the declared length. -/
def ShortInlineZeroPadded (r : KString) : Prop :=
  KStringIsValid r = true → KStringIsShort r = true →
    r.content.drop (KStringSize r) = List.replicate (12 - KStringSize r) 0

/-- The padding property only inspects the meta field and the inline
region. -/
theorem padding_congr {r r' : KString} (hm : r.meta = r'.meta)
    (hc : r.content = r'.content) (h : ShortInlineZeroPadded r') :
    ShortInlineZeroPadded r := by
  intro hv hshort
  have hv' : KStringIsValid r' = true := by
    rw [KStringIsValid, ← hm]
    exact hv
  have hs' : KStringIsShort r' = true := by
    rw [KStringIsShort, ← hm]
    exact hshort
  have hsz : KStringSize r = KStringSize r' := by
    rw [KStringSize, KStringSize, if_pos hv, if_pos hv', hm]
  rw [hsz, hc]
  exact h hv' hs'

theorem createWithEncoding_padding (pStr : List Nat) (e : KStringEncoding) :
    ShortInlineZeroPadded (KStringCreateWithEncoding pStr e) := by
  intro hv hshort
  by_cases hsent : KS_CreateSizeField pStr.length e = KSTRING_INVALID_LENGTH
  · rw [KStringCreateWithEncoding] at hv
    rw [if_pos hsent] at hv
    exact absurd hv (by decide)
  · have h12 : pStr.length ≤ 12 := by
      have hh := createWithEncoding_isShort pStr e hsent
      rw [hh] at hshort
      simpa [KS_IsShortString, KSTRING_MAX_SHORT_LENGTH] using hshort
    have hsz : KStringSize (KStringCreateWithEncoding pStr e) = pStr.length := by
      rw [size_of_valid (createWithEncoding_valid pStr e hsent),
        createWithEncoding_size pStr e hsent]
    rw [hsz, createWithEncoding_short_eq pStr e hsent h12]
    show (inlineContent pStr).drop pStr.length = List.replicate (12 - pStr.length) 0
    rw [inlineContent, KSTRING_MAX_SHORT_LENGTH]
    exact List.drop_left' rfl

theorem createPersistent_modulo_scls (pStr : List Nat) (e : KStringEncoding) :
    (KStringCreatePersistentWithEncoding pStr e).meta =
      (KStringCreateWithEncoding pStr e).meta ∧
    (KStringCreatePersistentWithEncoding pStr e).content =
      (KStringCreateWithEncoding pStr e).content := by
  unfold KStringCreatePersistentWithEncoding KStringCreateWithEncoding
  by_cases hsent : KS_CreateSizeField pStr.length e = KSTRING_INVALID_LENGTH
  · simp only [if_pos hsent]
    exact ⟨trivial, trivial⟩
  · simp only [if_neg hsent]
    by_cases hshort : KS_IsShortString pStr.length = true
    · simp only [if_pos hshort]
      exact ⟨trivial, trivial⟩
    · simp only [if_neg hshort]
      exact ⟨trivial, trivial⟩

theorem createTransient_modulo_scls (pStr : List Nat) (e : KStringEncoding) :
    (KStringCreateTransientWithEncoding pStr e).meta =
      (KStringCreateWithEncoding pStr e).meta ∧
    (KStringCreateTransientWithEncoding pStr e).content =
      (KStringCreateWithEncoding pStr e).content := by
  unfold KStringCreateTransientWithEncoding KStringCreateWithEncoding
  by_cases hsent : KS_CreateSizeField pStr.length e = KSTRING_INVALID_LENGTH
  · simp only [if_pos hsent]
    exact ⟨trivial, trivial⟩
  · simp only [if_neg hsent]
    by_cases hshort : KS_IsShortString pStr.length = true
    · simp only [if_pos hshort]
      exact ⟨trivial, trivial⟩
    · simp only [if_neg hshort]
      exact ⟨trivial, trivial⟩

theorem createPersistent_padding (pStr : List Nat) (e : KStringEncoding) :
    ShortInlineZeroPadded (KStringCreatePersistentWithEncoding pStr e) :=
  padding_congr (createPersistent_modulo_scls pStr e).1
    (createPersistent_modulo_scls pStr e).2 (createWithEncoding_padding pStr e)

theorem createTransient_padding (pStr : List Nat) (e : KStringEncoding) :
    ShortInlineZeroPadded (KStringCreateTransientWithEncoding pStr e) :=
  padding_congr (createTransient_modulo_scls pStr e).1
    (createTransient_modulo_scls pStr e).2 (createWithEncoding_padding pStr e)

/-- Whenever `KStringSubstring` takes its success path (valid input,
offset in range, clamped length under the cap), the value it builds is
the one the basic constructor builds from the clamped slice.  Unlike
`substring_eq_create` this covers a wrapping `Offset + Size` too. -/
theorem substring_eq_create_clamped {s : KString} (hwf : KStringWF s)
    (Offset Size : Nat) (hoff : Offset < KS_GetSizeFromField s.meta)
    (hM : (if (Offset + Size) % SIZE_T_MOD > KS_GetSizeFromField s.meta
           then KS_GetSizeFromField s.meta - Offset else Size) ≤ KSTRING_SIZE_MASK) :
    KStringSubstring s Offset Size =
      KStringCreateWithEncoding
        (((KStringData s).drop Offset).take
          (if (Offset + Size) % SIZE_T_MOD > KS_GetSizeFromField s.meta
           then KS_GetSizeFromField s.meta - Offset else Size))
        (KS_GetEncodingFromField s.meta) := by
  have hn := getSize_lt s.meta
  set n := KS_GetSizeFromField s.meta with hndef
  set M := (if (Offset + Size) % SIZE_T_MOD > n then n - Offset else Size) with hMdef
  have hdata_len : n ≤ (KStringData s).length := by
    rw [KStringData]
    by_cases hss : KStringIsShort s = true
    · rw [if_pos hss, wf_content_length hwf hss]
      exact isShort_iff.mp hss
    · rw [if_neg hss, (wf_long hwf (by simpa using hss)).1]
  have hMle : M ≤ n - Offset := by
    rw [hMdef]
    by_cases hcl : (Offset + Size) % SIZE_T_MOD > n
    · rw [if_pos hcl]
    · rw [if_neg hcl]
      by_cases hw : Offset + Size < SIZE_T_MOD
      · rw [Nat.mod_eq_of_lt hw] at hcl
        omega
      · exfalso
        have hM' : Size ≤ KSTRING_SIZE_MASK := by
          rw [hMdef, if_neg hcl] at hM
          exact hM
        unfold KSTRING_SIZE_MASK at hM'
        unfold SIZE_T_MOD at hw
        omega
  have hslice : (((KStringData s).drop Offset).take M).length = M := by
    rw [List.length_take_of_le]
    rw [List.length_drop]
    omega
  have hne : KS_CreateSizeField M (KS_GetEncodingFromField s.meta) ≠
      KSTRING_INVALID_LENGTH := wf_createSizeField_ne hwf (by omega)
  unfold KStringSubstring
  rw [if_neg (by simp [wf_valid hwf])]
  rw [if_neg (by omega : ¬ Offset ≥ n)]
  rw [← hMdef]
  rw [if_neg (by omega : ¬ M > KSTRING_SIZE_MASK)]
  rw [if_neg hne]
  by_cases h12 : M ≤ 12
  · rw [if_pos (by simp [KS_IsShortString, KSTRING_MAX_SHORT_LENGTH, h12])]
    rw [createWithEncoding_short_eq _ _ (by rw [hslice]; exact hne) (by rw [hslice]; exact h12)]
    rw [inlineContent, hslice, KSTRING_MAX_SHORT_LENGTH]
  · rw [if_neg (by simp [KS_IsShortString, KSTRING_MAX_SHORT_LENGTH, h12])]
    rw [createWithEncoding_long_eq _ _ (by rw [hslice]; exact hne) (by rw [hslice]; exact h12)]
    rw [storedPrefixOf]
    simp only [hslice]
    rw [if_pos (by omega : M ≥ 4)]
    simp

theorem substring_padding (s : KString) (Offset Size : Nat) (hwf : KStringWF s) :
    ShortInlineZeroPadded (KStringSubstring s Offset Size) := by
  intro hv hshort
  by_cases hoff : Offset ≥ KS_GetSizeFromField s.meta
  · rw [KStringSubstring, if_neg (by simp [wf_valid hwf]), if_pos hoff] at hv
    exact absurd hv (by decide)
  · by_cases hM : (if (Offset + Size) % SIZE_T_MOD > KS_GetSizeFromField s.meta
        then KS_GetSizeFromField s.meta - Offset else Size) ≤ KSTRING_SIZE_MASK
    · have heq := substring_eq_create_clamped hwf Offset Size (by omega) hM
      rw [heq] at hv hshort ⊢
      exact createWithEncoding_padding _ _ hv hshort
    · rw [KStringSubstring, if_neg (by simp [wf_valid hwf]),
        if_neg (by omega : ¬ Offset ≥ KS_GetSizeFromField s.meta),
        if_pos (by omega)] at hv
      exact absurd hv (by decide)

/-- C9: every successful operation that produces a short string — the
three construction modes, concat, or substring — leaves the inline
12-byte region zero past the declared length. -/
theorem c9_short_inline_zero_padding :
    (∀ (pStr : List Nat) (e : KStringEncoding),
      ShortInlineZeroPadded (KStringCreateWithEncoding pStr e)) ∧
    (∀ (pStr : List Nat) (e : KStringEncoding),
      ShortInlineZeroPadded (KStringCreatePersistentWithEncoding pStr e)) ∧
    (∀ (pStr : List Nat) (e : KStringEncoding),
      ShortInlineZeroPadded (KStringCreateTransientWithEncoding pStr e)) ∧
    (∀ a b : KString, KStringWF a → KStringWF b →
      ShortInlineZeroPadded (KStringConcat a b)) ∧
    (∀ (s : KString) (Offset Size : Nat), KStringWF s →
      ShortInlineZeroPadded (KStringSubstring s Offset Size)) := by
  refine ⟨createWithEncoding_padding, createPersistent_padding,
    createTransient_padding, ?_, ?_⟩
  · intro a b ha hb
    rw [concat_eq_create ha hb]
    exact createWithEncoding_padding _ _
  · intro s Offset Size hs
    exact substring_padding s Offset Size hs

theorem c9_short_inline_zero_padding_witness :
    (KStringCreateWithEncoding [1, 2, 3] .utf8).content.drop
        (KStringSize (KStringCreateWithEncoding [1, 2, 3] .utf8)) =
      List.replicate (12 - KStringSize (KStringCreateWithEncoding [1, 2, 3] .utf8)) 0 ∧
    (KStringConcat (KStringCreate [72, 101, 108, 108, 111])
        (KStringCreate [32, 87, 111, 114, 108, 100, 33])).content.drop
        (KStringSize (KStringConcat (KStringCreate [72, 101, 108, 108, 111])
          (KStringCreate [32, 87, 111, 114, 108, 100, 33]))) =
      List.replicate (12 - KStringSize (KStringConcat (KStringCreate [72, 101, 108, 108, 111])
        (KStringCreate [32, 87, 111, 114, 108, 100, 33]))) 0 :=
  ⟨c9_short_inline_zero_padding.1 [1, 2, 3] .utf8 (by decide) (by decide),
   c9_short_inline_zero_padding.2.2.2.1 _ _ (by decide) (by decide) (by decide) (by decide)⟩

/-- C6: for two well-formed long strings of equal length whose stored
4-byte regions differ, the prefix-optimized compare agrees with a naive
full byte-wise comparison of the two out-of-line buffers. -/
theorem c6_long_prefix_compare_refines (A B : KString)
    (hA : KStringWF A) (hB : KStringWF B)
    (hlen : KStringSize A = KStringSize B)
    (hAl : KStringIsShort A = false) (hBl : KStringIsShort B = false)
    (hpfx : A.pfx ≠ B.pfx) :
    KStringCompare A B = naiveByteWiseCompare A.buffer B.buffer := by
  have hszA := size_of_valid (wf_valid hA)
  have hszB := size_of_valid (wf_valid hB)
  have hn : KS_GetSizeFromField A.meta = KS_GetSizeFromField B.meta := by
    rw [← hszA, ← hszB]
    exact hlen
  have hla := wf_long hA hAl
  have hlb := wf_long hB hBl
  have h12 : ¬ KS_GetSizeFromField A.meta ≤ 12 := by
    intro hle
    rw [isShort_iff.mpr hle] at hAl
    cases hAl
  have hpfx4 : memcmpSign A.buffer B.buffer 4 ≠ 0 := by
    intro hzero
    apply hpfx
    rw [hla.2, hlb.2]
    exact (memcmpSign_eq_zero_iff A.buffer B.buffer 4
      (by rw [hla.1]; omega) (by rw [hlb.1]; omega)).mp hzero
  have hcongr : memcmpSign A.pfx B.pfx 4 = memcmpSign A.buffer B.buffer 4 := by
    apply memcmpSign_congr
    · rw [hla.2, List.take_take]
      simp
    · rw [hlb.2, List.take_take]
      simp
  unfold KStringCompare
  rw [if_neg (by simp [hn])]
  rw [if_neg (by simp [hAl])]
  rw [if_neg (by simp [hAl, hBl])]
  rw [hcongr]
  rw [if_pos hpfx4]
  rw [naive_eq_memcmpSign A.buffer B.buffer (by rw [hla.1, hlb.1, hn])]
  rw [hla.1]
  exact (memcmpSign_stable A.buffer B.buffer 4 (KS_GetSizeFromField A.meta)
    (by omega) hpfx4).symm

theorem c6_long_prefix_compare_refines_witness :
    KStringCompare (KStringCreate [88, 98, 99, 100, 101, 102, 103, 104, 105, 106, 107, 108, 109])
        (KStringCreate [89, 98, 99, 100, 101, 102, 103, 104, 105, 106, 107, 108, 109]) =
      naiveByteWiseCompare
        (KStringCreate [88, 98, 99, 100, 101, 102, 103, 104, 105, 106, 107, 108, 109]).buffer
        (KStringCreate [89, 98, 99, 100, 101, 102, 103, 104, 105, 106, 107, 108, 109]).buffer :=
  c6_long_prefix_compare_refines _ _ (by decide) (by decide) (by decide)
    (by decide) (by decide) (by decide)

/-- The round trip the byte-swap conversions do have (supporting C8):
for a well-formed UTF-16LE-tagged string of even and nonzero byte length,
converting to UTF-16BE is a pure byte-pair swap that preserves the byte
length, and converting the result back to UTF-16LE yields a string equal
to the original.  Byte length 0 is excluded: there the C loop guard
underflows (see `swapLoopBound`) and the behavior is undefined. -/
theorem c8_utf16_byteswap_roundtrip (x : KString) (hwf : KStringWF x)
    (henc : KStringGetEncoding x = .utf16le)
    (heven : KStringSize x % 2 = 0) (_hpos : 0 < KStringSize x) :
    KStringSize (KStringConvertUtf16LeToUtf16Be x) = KStringSize x ∧
    KStringBytes (KStringConvertUtf16LeToUtf16Be x) = swapBytePairs (KStringBytes x) ∧
    KStringEquals (KStringConvertUtf16BeToUtf16Le (KStringConvertUtf16LeToUtf16Be x)) x
      = true := by
  have hvx := wf_valid hwf
  have hsz := size_of_valid hvx
  have hn := getSize_lt x.meta
  have hencf : KS_GetEncodingFromField x.meta = .utf16le := by
    rw [getEncFromField_of_valid hvx, henc]
  have hbl : (KStringBytes x).length = KS_GetSizeFromField x.meta := bytes_length hwf
  have hy : KStringConvertUtf16LeToUtf16Be x =
      KStringCreateWithEncoding (swapBytePairs (KStringBytes x)) .utf16be := by
    rw [KStringConvertUtf16LeToUtf16Be, if_neg (by simp [hvx, hencf])]
  have hlen_swap : (swapBytePairs (KStringBytes x)).length = KS_GetSizeFromField x.meta := by
    rw [swapBytePairs_length, hbl]
  have hne_be : KS_CreateSizeField (swapBytePairs (KStringBytes x)).length
      KStringEncoding.utf16be ≠ KSTRING_INVALID_LENGTH := by
    rw [hlen_swap]
    exact createSizeField_ne_sentinel (by unfold KSTRING_SIZE_MASK; omega) (by simp)
  have hy_valid := createWithEncoding_valid _ _ hne_be
  have hy_encf : KS_GetEncodingFromField
      (KStringCreateWithEncoding (swapBytePairs (KStringBytes x)) .utf16be).meta =
      KStringEncoding.utf16be := by
    rw [getEncFromField_of_valid hy_valid, createWithEncoding_enc _ _ hne_be]
  have hy_bytes := createWithEncoding_bytes _ _ hne_be
  have hswapswap : swapBytePairs (swapBytePairs (KStringBytes x)) = KStringBytes x := by
    apply swapBytePairs_involutive
    rw [hbl, ← hsz]
    exact heven
  have hz : KStringConvertUtf16BeToUtf16Le
      (KStringCreateWithEncoding (swapBytePairs (KStringBytes x)) .utf16be) =
      KStringCreateWithEncoding (KStringBytes x) .utf16le := by
    rw [KStringConvertUtf16BeToUtf16Le, if_neg (by simp [hy_valid, hy_encf])]
    rw [hy_bytes, hswapswap]
  have hne_le : KS_CreateSizeField (KStringBytes x).length KStringEncoding.utf16le ≠
      KSTRING_INVALID_LENGTH := by
    rw [hbl]
    exact createSizeField_ne_sentinel (by unfold KSTRING_SIZE_MASK; omega) (by simp)
  refine ⟨?_, ?_, ?_⟩
  · rw [hy, size_of_valid hy_valid, createWithEncoding_size _ _ hne_be,
      hlen_swap, hsz]
  · rw [hy, hy_bytes]
  · rw [hy, hz]
    rw [equals_iff (createWithEncoding_wf _ _ hne_le) hwf]
    refine ⟨?_, ?_⟩
    · rw [createWithEncoding_size _ _ hne_le, hbl]
    · exact createWithEncoding_bytes _ _ hne_le

theorem c8_utf16_byteswap_roundtrip_witness :
    KStringSize (KStringConvertUtf16LeToUtf16Be
        (KStringCreateWithEncoding [1, 2, 3, 4] .utf16le)) =
      KStringSize (KStringCreateWithEncoding [1, 2, 3, 4] .utf16le) ∧
    KStringBytes (KStringConvertUtf16LeToUtf16Be
        (KStringCreateWithEncoding [1, 2, 3, 4] .utf16le)) =
      swapBytePairs (KStringBytes (KStringCreateWithEncoding [1, 2, 3, 4] .utf16le)) ∧
    KStringEquals
      (KStringConvertUtf16BeToUtf16Le (KStringConvertUtf16LeToUtf16Be
        (KStringCreateWithEncoding [1, 2, 3, 4] .utf16le)))
      (KStringCreateWithEncoding [1, 2, 3, 4] .utf16le) = true :=
  c8_utf16_byteswap_roundtrip _ (by decide) (by decide) (by decide) (by decide)

/-- C8: the claim quantifies over every valid UTF-16LE-tagged string of
even byte length, which includes the empty string — constructible and
valid (meta `0 ||| (1 <<< 30)`), with even byte length 0.  There the
byte-swap loops' guard `i < DataSize - 1` (KString.c lines 1237 and 1266)
computes its bound in `size_t`: it wraps to `SIZE_MAX`, so the loop body
runs with no source bytes and writes past the `DataSize + 2`-byte
allocation — undefined behavior — where the claim requires the round
trip to return the empty string.  This theorem certifies the failing
input and the wrapped bound; the round trip for every nonzero even
length is proved separately above. -/
theorem c8_empty_swap_guard_underflow :
    KStringIsValid (KStringCreateWithEncoding [] .utf16le) = true ∧
    KStringGetEncoding (KStringCreateWithEncoding [] .utf16le) = .utf16le ∧
    KStringSize (KStringCreateWithEncoding [] .utf16le) = 0 ∧
    KStringSize (KStringCreateWithEncoding [] .utf16le) % 2 = 0 ∧
    swapLoopBound (KStringSize (KStringCreateWithEncoding [] .utf16le)) = 2 ^ 64 - 1 := by
  decide

theorem c5_starts_with_substring_witness :
    KStringStartsWith
        (KStringCreate [71, 101, 114, 109, 97, 110, 32, 115, 116, 114, 105, 110, 103, 115])
        (KStringCreate [71, 101, 114, 109, 97, 110]) =
      KStringEquals
        (KStringSubstring
          (KStringCreate [71, 101, 114, 109, 97, 110, 32, 115, 116, 114, 105, 110, 103, 115])
          0 (KStringSize (KStringCreate [71, 101, 114, 109, 97, 110])))
        (KStringCreate [71, 101, 114, 109, 97, 110]) :=
  c5_starts_with_substring _ _ (by decide) (by decide) (by decide) (by decide)

/-- C7 counterexample: concatenating two valid ANSI-tagged strings whose
lengths sum to exactly 2^30−1 (which does not exceed the cap) yields the
invalid sentinel, because the packed meta of the result collides with the
sentinel (see C3). -/
theorem c7_counterexample :
    KStringIsValid (KStringCreateWithEncoding (List.replicate (2 ^ 30 - 2) 0) .ansi) = true ∧
    KStringIsValid (KStringCreateWithEncoding [0] .ansi) = true ∧
    KStringSize (KStringCreateWithEncoding (List.replicate (2 ^ 30 - 2) 0) .ansi) +
      KStringSize (KStringCreateWithEncoding [0] .ansi) = 2 ^ 30 - 1 ∧
    KStringConcat (KStringCreateWithEncoding (List.replicate (2 ^ 30 - 2) 0) .ansi)
      (KStringCreateWithEncoding [0] .ansi) = KStringInvalid := by
  have hne_a : KS_CreateSizeField (List.replicate (2 ^ 30 - 2) (0 : Nat)).length
      KStringEncoding.ansi ≠ KSTRING_INVALID_LENGTH := by
    rw [List.length_replicate,
      createSizeField_packed _ (by unfold KSTRING_SIZE_MASK; omega)]
    intro h
    rw [packed_eq_sentinel_iff (by omega)] at h
    omega
  have hne_b : KS_CreateSizeField ([0] : List Nat).length KStringEncoding.ansi ≠
      KSTRING_INVALID_LENGTH := by
    decide
  have hsa : KStringSize (KStringCreateWithEncoding (List.replicate (2 ^ 30 - 2) 0) .ansi) =
      2 ^ 30 - 2 := by
    rw [size_of_valid (createWithEncoding_valid _ _ hne_a),
      createWithEncoding_size _ _ hne_a, List.length_replicate]
  have hsb : KStringSize (KStringCreateWithEncoding [0] .ansi) = 1 := by
    rw [size_of_valid (createWithEncoding_valid _ _ hne_b),
      createWithEncoding_size _ _ hne_b]
    rfl
  refine ⟨createWithEncoding_valid _ _ hne_a, createWithEncoding_valid _ _ hne_b,
    by rw [hsa, hsb]; omega, ?_⟩
  rw [concat_eq_create (createWithEncoding_wf _ _ hne_a) (createWithEncoding_wf _ _ hne_b)]
  have hlen : (KStringBytes (KStringCreateWithEncoding (List.replicate (2 ^ 30 - 2) 0) .ansi) ++
      KStringBytes (KStringCreateWithEncoding [0] .ansi)).length = 2 ^ 30 - 1 := by
    rw [List.length_append,
      bytes_length (createWithEncoding_wf _ _ hne_a),
      bytes_length (createWithEncoding_wf _ _ hne_b),
      createWithEncoding_size _ _ hne_a, createWithEncoding_size _ _ hne_b,
      List.length_replicate]
    simp only [List.length_cons, List.length_nil]
    omega
  have hencfa : KS_GetEncodingFromField
      (KStringCreateWithEncoding (List.replicate (2 ^ 30 - 2) 0) .ansi).meta =
      KStringEncoding.ansi := by
    rw [getEncFromField_of_valid (createWithEncoding_valid _ _ hne_a),
      createWithEncoding_enc _ _ hne_a]
  rw [hencfa, KStringCreateWithEncoding]
  rw [if_pos ?hsent]
  case hsent =>
    rw [hlen, createSizeField_packed _ (by unfold KSTRING_SIZE_MASK; omega)]
    rw [packed_eq_sentinel_iff (by omega)]
    exact ⟨rfl, rfl⟩

/-- C7 (amended): concat of well-formed inputs whose summed length stays
under 2^30−1 — or reaches it with a non-ANSI encoding on the left input —
is valid with the summed size, the concatenated bytes and the left
input's encoding; concat of any invalid input, or of well-formed inputs
whose summed length exceeds the cap, is the invalid sentinel.  (The
summed length of two valid strings cannot overflow `size_t`, each length
being below 2^30.) -/
theorem c7_concat_spec :
    (∀ a b : KString, KStringWF a → KStringWF b →
      KStringSize a + KStringSize b ≤ 2 ^ 30 - 1 →
      ¬(KStringSize a + KStringSize b = 2 ^ 30 - 1 ∧ KStringGetEncoding a = .ansi) →
      KStringIsValid (KStringConcat a b) = true ∧
      KStringSize (KStringConcat a b) = KStringSize a + KStringSize b ∧
      KStringBytes (KStringConcat a b) = KStringBytes a ++ KStringBytes b ∧
      KStringGetEncoding (KStringConcat a b) = KStringGetEncoding a) ∧
    (∀ a b : KString, KStringIsValid a = false ∨ KStringIsValid b = false →
      KStringConcat a b = KStringInvalid) ∧
    (∀ a b : KString, KStringWF a → KStringWF b →
      2 ^ 30 - 1 < KStringSize a + KStringSize b →
      KStringConcat a b = KStringInvalid) := by
  refine ⟨?_, ?_, ?_⟩
  · intro a b ha hb hsum hns
    have hsa := size_of_valid (wf_valid ha)
    have hsb := size_of_valid (wf_valid hb)
    rw [hsa, hsb] at hsum hns
    have hlen : (KStringBytes a ++ KStringBytes b).length =
        KS_GetSizeFromField a.meta + KS_GetSizeFromField b.meta := by
      rw [List.length_append, bytes_length ha, bytes_length hb]
    have hne : KS_CreateSizeField (KStringBytes a ++ KStringBytes b).length
        (KS_GetEncodingFromField a.meta) ≠ KSTRING_INVALID_LENGTH := by
      rw [hlen, createSizeField_packed _ (by unfold KSTRING_SIZE_MASK; omega)]
      intro hc
      rw [packed_eq_sentinel_iff (by omega)] at hc
      apply hns
      have ht := hc.2
      have henc_ansi : KS_GetEncodingFromField a.meta = .ansi := by
        cases hEnc : KS_GetEncodingFromField a.meta
        · rw [hEnc] at ht; exact absurd ht (by decide)
        · rw [hEnc] at ht; exact absurd ht (by decide)
        · rw [hEnc] at ht; exact absurd ht (by decide)
        · rfl
      refine ⟨hc.1, ?_⟩
      rw [← getEncFromField_of_valid (wf_valid ha)]
      exact henc_ansi
    rw [concat_eq_create ha hb]
    refine ⟨createWithEncoding_valid _ _ hne, ?_, createWithEncoding_bytes _ _ hne, ?_⟩
    · rw [size_of_valid (createWithEncoding_valid _ _ hne),
        createWithEncoding_size _ _ hne, hlen, hsa, hsb]
    · rw [createWithEncoding_enc _ _ hne, getEncFromField_of_valid (wf_valid ha)]
  · intro a b h
    unfold KStringConcat
    rw [if_pos h]
  · intro a b ha hb hsum
    have hsa := size_of_valid (wf_valid ha)
    have hsb := size_of_valid (wf_valid hb)
    rw [hsa, hsb] at hsum
    rw [concat_eq_create ha hb, KStringCreateWithEncoding]
    rw [if_pos ?hbig]
    case hbig =>
      rw [List.length_append, bytes_length ha, bytes_length hb]
      exact createSizeField_big _ (by unfold KSTRING_SIZE_MASK; omega)

theorem c7_concat_spec_witness :
    KStringIsValid (KStringConcat (KStringCreate [72, 101, 108, 108, 111])
      (KStringCreate [32, 87, 111, 114, 108, 100, 33])) = true ∧
    KStringSize (KStringConcat (KStringCreate [72, 101, 108, 108, 111])
        (KStringCreate [32, 87, 111, 114, 108, 100, 33])) =
      KStringSize (KStringCreate [72, 101, 108, 108, 111]) +
        KStringSize (KStringCreate [32, 87, 111, 114, 108, 100, 33]) ∧
    KStringBytes (KStringConcat (KStringCreate [72, 101, 108, 108, 111])
        (KStringCreate [32, 87, 111, 114, 108, 100, 33])) =
      KStringBytes (KStringCreate [72, 101, 108, 108, 111]) ++
        KStringBytes (KStringCreate [32, 87, 111, 114, 108, 100, 33]) ∧
    KStringGetEncoding (KStringConcat (KStringCreate [72, 101, 108, 108, 111])
        (KStringCreate [32, 87, 111, 114, 108, 100, 33])) =
      KStringGetEncoding (KStringCreate [72, 101, 108, 108, 111]) :=
  c7_concat_spec.1 _ _ (by decide) (by decide) (by decide) (by decide)
